import Mathlib

/-!
Verification of the impact-analysis core of a Recoil-to-Jotai migration guard.

The development shallowly embeds the pipeline of the repository:

* the data model (definitions, usages, resolved usages, dependency graph,
  impact results) from src/types.ts;
* the impact engine (analyzeAtomImpact, analyzeFileImpact) from src/impact.ts,
  including the coverage-first setter merge and the depth- and cycle-bounded
  breadth-first traversal of dependent selectors;
* the dependency-graph builder from src/graph.ts;
* the usage collector from src/collect-usages.ts, over a small model of the
  AST shapes that the collector consumes (the parser itself is an external
  collaborator and is passed in as data or as an oracle function);
* the identifier resolver from src/resolve.ts (the import/re-export chain
  walker with its depth cap and visited set);
* the writer-binding resolver from src/setter-bindings.ts and the runtime
  callsite scanner from src/setter-callsites.ts, over a small model of the
  declarator shapes it consumes.

JavaScript Maps are modelled as association lists with replace-on-set
insertion-order semantics, JavaScript Sets as insertion-ordered duplicate-free
lists, and filesystem or parser access as explicit oracle parameters.
-/

namespace RecoilGuard

/-! ### Association-list models of JS Map and Set -/

/-- JS Map.set: replace the value in place when the key exists (keeping the
original insertion position), append otherwise. -/
def insertM {α : Type} (m : List (String × α)) (k : String) (v : α) :
    List (String × α) :=
  match m with
  | [] => [(k, v)]
  | (k', v') :: rest =>
    if k' == k then (k, v) :: rest else (k', v') :: insertM rest k v

/-- JS Set.add on an insertion-ordered duplicate-free list. -/
def addUniq (l : List String) (x : String) : List String :=
  if x ∈ l then l else l ++ [x]

/-! ### AST model

A small closed model of the oxc-parser node shapes that the analysed code
consumes.  Every node kind that any collector pattern-matches on has its own
constructor; every other node kind is collapsed into the catch-all
constructor, which only matters for its children.  The walker visits all
nodes in preorder with enter and leave callbacks, which is modelled below by
an explicit event list. -/

inductive JsNode where
  /-- Program root with its statement list. -/
  | program (body : List JsNode)
  /-- ImportDeclaration: module specifier string, the type-only flag, and
  specifiers as (imported name, local name, specifier type-only flag). -/
  | importDecl (source : String) (typeOnly : Bool)
      (specifiers : List (String × String × Bool))
  /-- CallExpression with the start offset recorded by the parser. -/
  | callExpr (callee : JsNode) (args : List JsNode) (start : Nat)
  /-- Identifier. -/
  | ident (name : String)
  /-- FunctionDeclaration; the name is its id when that id is an
  Identifier. -/
  | funcDecl (name : Option String) (params : List JsNode) (body : JsNode)
  /-- FunctionExpression (possibly named). -/
  | funcExpr (name : Option String) (params : List JsNode) (body : JsNode)
  /-- ArrowFunctionExpression. -/
  | arrowFn (params : List JsNode) (body : JsNode)
  /-- VariableDeclarator with id pattern and optional initializer. -/
  | varDeclarator (id : JsNode) (init : Option JsNode)
  /-- MemberExpression. -/
  | member (obj : JsNode) (prop : JsNode)
  /-- ObjectPattern (destructuring). -/
  | objPattern (props : List JsNode)
  /-- Property inside an ObjectPattern: optional key identifier name, the
  bound value pattern and the shorthand flag. -/
  | patProp (key : Option String) (value : JsNode) (shorthand : Bool)
  /-- JSXAttribute whose name is a JSXIdentifier (none otherwise), with the
  attribute value subtree as children. -/
  | jsxAttr (name : Option String) (children : List JsNode)
  /-- Statement block (FunctionBody and similar). -/
  | block (stmts : List JsNode)
  /-- ReturnStatement with an optional argument. -/
  | returnStmt (argument : Option JsNode)
  /-- ArrayPattern (destructuring) whose elements can be holes. -/
  | arrayPattern (elements : List (Option JsNode))
  /-- Any other node kind, kept only for its children. -/
  | other (children : List JsNode)

mutual
/-- All nodes of a subtree in preorder, as visited by the walker. -/
def allNodes : JsNode → List JsNode
  | .program body => .program body :: allNodesList body
  | .importDecl s t sp => [.importDecl s t sp]
  | .callExpr callee args st =>
      .callExpr callee args st :: (allNodes callee ++ allNodesList args)
  | .ident n => [.ident n]
  | .funcDecl n params body =>
      .funcDecl n params body :: (allNodesList params ++ allNodes body)
  | .funcExpr n params body =>
      .funcExpr n params body :: (allNodesList params ++ allNodes body)
  | .arrowFn params body =>
      .arrowFn params body :: (allNodesList params ++ allNodes body)
  | .varDeclarator id init =>
      .varDeclarator id init ::
        (allNodes id ++ (match init with | some i => allNodes i | none => []))
  | .member obj prop => .member obj prop :: (allNodes obj ++ allNodes prop)
  | .objPattern props => .objPattern props :: allNodesList props
  | .patProp k v sh => .patProp k v sh :: allNodes v
  | .jsxAttr n cs => .jsxAttr n cs :: allNodesList cs
  | .block stmts => .block stmts :: allNodesList stmts
  | .returnStmt arg =>
      .returnStmt arg ::
        (match arg with | some a => allNodes a | none => [])
  | .arrayPattern elements =>
      .arrayPattern elements :: allNodesOptList elements
  | .other cs => .other cs :: allNodesList cs

def allNodesList : List JsNode → List JsNode
  | [] => []
  | n :: ns => allNodes n ++ allNodesList ns

def allNodesOptList : List (Option JsNode) → List JsNode
  | [] => []
  | some n :: ns => allNodes n ++ allNodesOptList ns
  | none :: ns => allNodesOptList ns
end

/-! ### Data model (src/types.ts) -/

inductive StateKind where
  | atom
  | selector
  | atomFamily
  | selectorFamily
deriving DecidableEq, Repr

inductive UsageType where
  | reader
  | setter
  | initializer
deriving DecidableEq, Repr

inductive WriterKind where
  | runtime
  | fallback
deriving DecidableEq, Repr

structure Usage where
  atomName : String
  localName : String
  type : UsageType
  hook : String
  file : String
  line : Nat
  enclosingDefinition : Option String := none
deriving DecidableEq, Repr

structure RecoilDefinition where
  name : String
  kind : StateKind
  file : String
  line : Nat
  getBodyAst : Option JsNode := none
  inlineDefaultGetBody : Option JsNode := none

structure JotaiDefinition where
  name : String
  file : String
  line : Nat
deriving DecidableEq, Repr

structure JotaiImport where
  localName : String
  importedName : String
  source : String
  file : String
deriving DecidableEq, Repr

structure ExtractionResult where
  recoilDefinitions : List RecoilDefinition
  jotaiDefinitions : List JotaiDefinition := []
  jotaiImports : List JotaiImport := []

structure ResolvedUsage where
  atomName : String
  localName : String
  type : UsageType
  hook : String
  file : String
  line : Nat
  enclosingDefinition : Option String := none
  resolvedName : String
  definitionFile : String
  writerKind : Option WriterKind := none
deriving DecidableEq, Repr

structure DependencyGraph where
  dependentSelectors : List (String × List String)
  componentUsages : List (String × List ResolvedUsage)
  definitions : List (String × RecoilDefinition)

structure ViaDefinition where
  file : String
  line : Nat
  kind : StateKind
deriving DecidableEq, Repr

structure TransitiveDependency where
  via : String
  viaDefinition : ViaDefinition
  depth : Nat
  readers : List ResolvedUsage
  setters : List ResolvedUsage
deriving DecidableEq, Repr

structure ImpactSummary where
  totalFiles : Nat
  totalComponents : Nat
  totalSelectors : Nat
deriving DecidableEq, Repr

structure ImpactTarget where
  name : String
  kind : StateKind
  file : String
  line : Nat
deriving DecidableEq, Repr

structure DirectUsages where
  readers : List ResolvedUsage
  setters : List ResolvedUsage
  initializers : List ResolvedUsage
deriving DecidableEq, Repr

structure ImpactResult where
  target : ImpactTarget
  direct : DirectUsages
  transitive : List TransitiveDependency
  summary : ImpactSummary
deriving DecidableEq, Repr

structure RuntimeWriteCallsite where
  atomName : String
  file : String
  line : Nat
  calleeName : String
deriving DecidableEq, Repr

structure CoverageOptions where
  runtimeCallsites : List RuntimeWriteCallsite
  resolvedFactoryKeys : List String
deriving DecidableEq, Repr

/-! ### Dependency graph builder (src/graph.ts) -/

/-- Set-valued map update used for dependentSelectors: create the set when
absent, then add the element once. -/
def addToSetMap (m : List (String × List String)) (k v : String) :
    List (String × List String) :=
  match m with
  | [] => [(k, [v])]
  | (k', s) :: rest =>
    if k' == k then (k', if v ∈ s then s else s ++ [v]) :: rest
    else (k', s) :: addToSetMap rest k v

/-- List-valued map update used for componentUsages: create the list when
absent, then push. -/
def addToListMap (m : List (String × List ResolvedUsage)) (k : String)
    (u : ResolvedUsage) : List (String × List ResolvedUsage) :=
  match m with
  | [] => [(k, [u])]
  | (k', l) :: rest =>
    if k' == k then (k', l ++ [u]) :: rest
    else (k', l) :: addToListMap rest k u

def buildDependencyGraph (extraction : ExtractionResult)
    (resolvedUsages : List ResolvedUsage) : DependencyGraph :=
  let definitions :=
    extraction.recoilDefinitions.foldl (fun m d => insertM m d.name d) []
  let maps := resolvedUsages.foldl
    (fun (p : List (String × List String) × List (String × List ResolvedUsage))
        usage =>
      match usage.enclosingDefinition with
      | some encl =>
        if usage.hook == "get(selector)" && encl != "" then
          (addToSetMap p.1 usage.resolvedName encl, p.2)
        else
          (p.1, addToListMap p.2 usage.resolvedName usage)
      | none => (p.1, addToListMap p.2 usage.resolvedName usage))
    ([], [])
  { definitions := definitions, dependentSelectors := maps.1,
    componentUsages := maps.2 }

/-! ### Impact engine (src/impact.ts) -/

/-- Maximum BFS depth for transitive selector chain traversal. -/
def maxDepth : Nat := 5

/-- Dependent selectors of a name in the graph (empty when the name has no
entry). -/
def depsOf (graph : DependencyGraph) (name : String) : List String :=
  (List.lookup name graph.dependentSelectors).getD []

/-- All names occurring in some dependent-selector set of the graph.  Every
name that can ever enter the BFS queue belongs to this list. -/
def depUniverse (graph : DependencyGraph) : List String :=
  graph.dependentSelectors.foldr (fun p acc => p.2 ++ acc) []

/-- The largest size of a dependent-selector set, bounding how many entries a
single BFS step can enqueue. -/
def maxDepsLen (graph : DependencyGraph) : Nat :=
  graph.dependentSelectors.foldr (fun p acc => max p.2.length acc) 0

theorem lookup_mem {α : Type} [BEq α] [LawfulBEq α] {β : Type} {k : α} {v : β} :
    ∀ {l : List (α × β)}, List.lookup k l = some v → (k, v) ∈ l := by
  intro l h
  induction l with
  | nil => simp [List.lookup] at h
  | cons p ps ih =>
    rw [List.lookup] at h
    by_cases hk : k == p.1
    · simp [hk] at h
      have hp : k = p.1 := eq_of_beq hk
      have hkv : (k, v) = p := by cases p; simp_all
      simp [hkv]
    · simp [hk] at h
      exact List.mem_cons_of_mem _ (ih h)

theorem mem_foldr_append {m : List (String × List String)} {n x : String}
    {l : List String} (hmem : (n, l) ∈ m) (hx : x ∈ l) :
    x ∈ m.foldr (fun p acc => p.2 ++ acc) [] := by
  induction m with
  | nil => simp at hmem
  | cons p ps ih =>
    simp only [List.foldr, List.mem_append]
    rcases List.mem_cons.mp hmem with h1 | h2
    · left; rw [← h1]; exact hx
    · right; exact ih h2

theorem mem_univ_of_pair {g : DependencyGraph} {n x : String} {l : List String}
    (hmem : (n, l) ∈ g.dependentSelectors) (hx : x ∈ l) : x ∈ depUniverse g := by
  unfold depUniverse
  exact mem_foldr_append hmem hx

theorem mem_depUniverse {g : DependencyGraph} {n x : String}
    (hx : x ∈ depsOf g n) : x ∈ depUniverse g := by
  unfold depsOf at hx
  cases hl : List.lookup n g.dependentSelectors with
  | none => rw [hl] at hx; simp at hx
  | some l => rw [hl] at hx; exact mem_univ_of_pair (lookup_mem hl) hx

theorem len_le_foldr_max {m : List (String × List String)} {n : String}
    {l : List String} (hmem : (n, l) ∈ m) :
    l.length ≤ m.foldr (fun p acc => max p.2.length acc) 0 := by
  induction m with
  | nil => simp at hmem
  | cons p ps ih =>
    simp only [List.foldr]
    rcases List.mem_cons.mp hmem with h1 | h2
    · rw [← h1]; exact le_max_left _ _
    · exact le_trans (ih h2) (le_max_right _ _)

theorem pair_len_le {g : DependencyGraph} {n : String} {l : List String}
    (hmem : (n, l) ∈ g.dependentSelectors) : l.length ≤ maxDepsLen g := by
  unfold maxDepsLen
  exact len_le_foldr_max hmem

theorem depsOf_len_le (g : DependencyGraph) (n : String) :
    (depsOf g n).length ≤ maxDepsLen g := by
  unfold depsOf
  cases hl : List.lookup n g.dependentSelectors with
  | none => simp
  | some l => simpa using pair_len_le (lookup_mem hl)

/-- Decreasing measure for the BFS while-loop: the queue length plus the
number of not-yet-visited names that could still be processed, weighted by
the maximal number of entries a single step can enqueue. -/
def bfsMeasure (g : DependencyGraph) (queue : List (String × Nat))
    (visited : List String) : Nat :=
  queue.length +
    (((depUniverse g).toFinset ∪ (queue.map Prod.fst).toFinset).filter
        (fun s => s ∉ visited)).card * (maxDepsLen g + 1)

/-- The BFS while-loop of analyzeAtomImpact: pop in FIFO order, skip entries
beyond maxDepth or already visited, otherwise mark visited, emit a
transitive record (with a placeholder location when the definition is
absent) and enqueue the unvisited dependents at depth + 1. -/
def bfsLoop (graph : DependencyGraph) (queue : List (String × Nat))
    (visited : List String) : List TransitiveDependency :=
  match queue with
  | [] => []
  | (selectorName, depth) :: rest =>
    if h1 : depth > maxDepth then
      bfsLoop graph rest visited
    else if h2 : selectorName ∈ visited then
      bfsLoop graph rest visited
    else
      let selectorUsages :=
        (List.lookup selectorName graph.componentUsages).getD []
      let entry : TransitiveDependency :=
        { via := selectorName
          viaDefinition :=
            match List.lookup selectorName graph.definitions with
            | some d => { file := d.file, line := d.line, kind := d.kind }
            | none => { file := "", line := 0, kind := StateKind.selector }
          depth := depth
          readers := selectorUsages.filter (fun u => u.type == UsageType.reader)
          setters := selectorUsages.filter (fun u => u.type == UsageType.setter) }
      let nextSelectors := (depsOf graph selectorName).filter
        (fun s => s ∉ (selectorName :: visited))
      entry :: bfsLoop graph
        (rest ++ nextSelectors.map (fun s => (s, depth + 1)))
        (selectorName :: visited)
termination_by bfsMeasure graph queue visited
decreasing_by
  · unfold bfsMeasure
    have hsub : ((depUniverse graph).toFinset ∪ (rest.map Prod.fst).toFinset).filter
          (fun s => s ∉ visited) ⊆
        ((depUniverse graph).toFinset ∪
            (((selectorName, depth) :: rest).map Prod.fst).toFinset).filter
          (fun s => s ∉ visited) := by
      apply Finset.filter_subset_filter
      apply Finset.union_subset_union_right
      intro x hx
      simp at hx ⊢
      right; exact hx
    have hc := Finset.card_le_card hsub
    have hm := Nat.mul_le_mul_right (maxDepsLen graph + 1) hc
    simp only [List.length_cons]
    omega
  · unfold bfsMeasure
    have hsub : ((depUniverse graph).toFinset ∪ (rest.map Prod.fst).toFinset).filter
          (fun s => s ∉ visited) ⊆
        ((depUniverse graph).toFinset ∪
            (((selectorName, depth) :: rest).map Prod.fst).toFinset).filter
          (fun s => s ∉ visited) := by
      apply Finset.filter_subset_filter
      apply Finset.union_subset_union_right
      intro x hx
      simp at hx ⊢
      right; exact hx
    have hc := Finset.card_le_card hsub
    have hm := Nat.mul_le_mul_right (maxDepsLen graph + 1) hc
    simp only [List.length_cons]
    omega
  · unfold bfsMeasure
    set nextS := (depsOf graph selectorName).filter
      (fun s => s ∉ (selectorName :: visited)) with hnext
    set U := ((depUniverse graph).toFinset ∪
        (((selectorName, depth) :: rest).map Prod.fst).toFinset).filter
      (fun s => s ∉ visited) with hU
    set U' := ((depUniverse graph).toFinset ∪
        ((rest ++ nextS.map (fun s => (s, depth + 1))).map Prod.fst).toFinset).filter
      (fun s => s ∉ (selectorName :: visited)) with hU'
    have hselU : selectorName ∈ U := by
      rw [hU]
      simp only [Finset.mem_filter, Finset.mem_union, List.mem_toFinset]
      exact ⟨Or.inr (by simp), h2⟩
    have hsub : U' ⊆ U.erase selectorName := by
      intro x hx
      rw [hU'] at hx
      simp only [Finset.mem_filter, Finset.mem_union, List.mem_toFinset,
        List.map_append, List.mem_append, List.mem_map, List.mem_cons,
        not_or] at hx
      obtain ⟨hx1, hx2, hx3⟩ := hx
      rw [Finset.mem_erase, hU]
      simp only [Finset.mem_filter, Finset.mem_union, List.mem_toFinset,
        List.map_cons, List.mem_cons]
      simp only [List.mem_map] at hx1 ⊢
      refine ⟨hx2, ?_, hx3⟩
      rcases hx1 with h | h | h
      · exact Or.inl h
      · exact Or.inr (Or.inr h)
      · obtain ⟨s, hs, hsx⟩ := h
        obtain ⟨a, ha, has⟩ := hs
        refine Or.inl ?_
        apply mem_depUniverse (n := selectorName)
        have hxa : x = a := by rw [← hsx, ← has]
        rw [hxa]
        exact List.mem_of_mem_filter ha
    have hcard : U'.card ≤ U.card - 1 := by
      have hc1 := Finset.card_le_card hsub
      have hc2 := Finset.card_erase_of_mem hselU
      omega
    have hUpos : 1 ≤ U.card := Finset.card_pos.mpr ⟨selectorName, hselU⟩
    have hlen : nextS.length ≤ maxDepsLen graph :=
      le_trans (List.length_filter_le _ _) (depsOf_len_le graph selectorName)
    have h3 : U'.card * (maxDepsLen graph + 1) ≤
        (U.card - 1) * (maxDepsLen graph + 1) :=
      Nat.mul_le_mul_right _ hcard
    have h4 : (U.card - 1) * (maxDepsLen graph + 1) + (maxDepsLen graph + 1) =
        U.card * (maxDepsLen graph + 1) := by
      have h5 := Nat.sub_add_cancel hUpos
      calc (U.card - 1) * (maxDepsLen graph + 1) + (maxDepsLen graph + 1)
          = (U.card - 1 + 1) * (maxDepsLen graph + 1) := by ring
        _ = U.card * (maxDepsLen graph + 1) := by rw [h5]
    simp only [List.length_append, List.length_cons, List.length_map]
    omega

theorem bfsLoop_nil (g : DependencyGraph) (v : List String) :
    bfsLoop g [] v = [] := by
  rw [bfsLoop]

theorem bfsLoop_skip_depth (g : DependencyGraph) (n : String) (d : Nat)
    (rest : List (String × Nat)) (v : List String) (h : d > maxDepth) :
    bfsLoop g ((n, d) :: rest) v = bfsLoop g rest v := by
  rw [bfsLoop]
  simp only [dif_pos h]

theorem bfsLoop_skip_visited (g : DependencyGraph) (n : String) (d : Nat)
    (rest : List (String × Nat)) (v : List String) (h1 : ¬ d > maxDepth)
    (h2 : n ∈ v) : bfsLoop g ((n, d) :: rest) v = bfsLoop g rest v := by
  rw [bfsLoop]
  simp only [dif_neg h1, dif_pos h2]

theorem bfsLoop_process (g : DependencyGraph) (n : String) (d : Nat)
    (rest : List (String × Nat)) (v : List String) (h1 : ¬ d > maxDepth)
    (h2 : n ∉ v) :
    bfsLoop g ((n, d) :: rest) v =
      { via := n
        viaDefinition :=
          match List.lookup n g.definitions with
          | some dd => { file := dd.file, line := dd.line, kind := dd.kind }
          | none => { file := "", line := 0, kind := StateKind.selector }
        depth := d
        readers := ((List.lookup n g.componentUsages).getD []).filter
          (fun u => u.type == UsageType.reader)
        setters := ((List.lookup n g.componentUsages).getD []).filter
          (fun u => u.type == UsageType.setter) } ::
      bfsLoop g
        (rest ++ ((depsOf g n).filter (fun s => s ∉ (n :: v))).map
          (fun s => (s, d + 1)))
        (n :: v) := by
  rw [bfsLoop]
  simp only [dif_neg h1, dif_neg h2]

/-- Every transitive record the BFS emits has depth at most maxDepth, since
deeper queue entries are skipped before emission. -/
theorem bfsLoop_depth_le (g : DependencyGraph) (q : List (String × Nat))
    (v : List String) : ∀ t ∈ bfsLoop g q v, t.depth ≤ maxDepth := by
  refine bfsLoop.induct g (fun q v => ∀ t ∈ bfsLoop g q v, t.depth ≤ maxDepth)
    ?_ ?_ ?_ ?_ q v
  · intro visited t ht
    simp [bfsLoop_nil] at ht
  · intro visited n d rest h1 ih t ht
    rw [bfsLoop_skip_depth g n d rest visited h1] at ht
    exact ih t ht
  · intro visited n d rest h1 h2 ih t ht
    rw [bfsLoop_skip_visited g n d rest visited h1 h2] at ht
    exact ih t ht
  · intro visited n d rest h1 h2
    intro nextS ih t ht
    rw [bfsLoop_process g n d rest visited h1 h2] at ht
    rcases List.mem_cons.mp ht with h | h
    · subst h; simpa using Nat.le_of_not_lt h1
    · exact ih t h

/-- The via names the BFS emits are pairwise distinct and disjoint from the
visited set it started from: the visited-set check makes each name appear at
most once regardless of how many paths (or cycles) reach it. -/
theorem bfsLoop_vias_nodup (g : DependencyGraph) (q : List (String × Nat))
    (v : List String) :
    ((bfsLoop g q v).map (fun t => t.via)).Nodup ∧
      ∀ t ∈ bfsLoop g q v, t.via ∉ v := by
  refine bfsLoop.induct g
    (fun q v => ((bfsLoop g q v).map (fun t => t.via)).Nodup ∧
      ∀ t ∈ bfsLoop g q v, t.via ∉ v) ?_ ?_ ?_ ?_ q v
  · intro visited
    simp [bfsLoop_nil]
  · intro visited n d rest h1 ih
    rw [bfsLoop_skip_depth g n d rest visited h1]
    exact ih
  · intro visited n d rest h1 h2 ih
    rw [bfsLoop_skip_visited g n d rest visited h1 h2]
    exact ih
  · intro visited n d rest h1 h2
    intro nextS ih
    rw [bfsLoop_process g n d rest visited h1 h2]
    obtain ⟨ihnodup, ihfresh⟩ := ih
    constructor
    · simp only [List.map_cons, List.nodup_cons]
      refine ⟨?_, ihnodup⟩
      intro hmem
      obtain ⟨t, ht, htv⟩ := List.mem_map.mp hmem
      have := ihfresh t ht
      rw [htv] at this
      exact this (List.mem_cons_self n visited)
    · intro t ht
      rcases List.mem_cons.mp ht with h | h
      · rw [h]
        exact h2
      · intro hv
        exact ihfresh t h (List.mem_cons_of_mem n hv)

/-- The coverage-merge key of a factory write site. -/
def factoryKey (u : ResolvedUsage) : String :=
  u.file ++ ":" ++ toString u.line

/-- Analyze the full impact of a single Recoil atom/selector
(src/impact.ts, analyzeAtomImpact).  Returns none when the atom is not in
the graph. -/
def analyzeAtomImpact (graph : DependencyGraph) (atomName : String)
    (coverageOptions : Option CoverageOptions := none) : Option ImpactResult :=
  match List.lookup atomName graph.definitions with
  | none => none
  | some definition =>
    let directUsages := (List.lookup atomName graph.componentUsages).getD []
    let readers := directUsages.filter (fun u => u.type == UsageType.reader)
    let factorySetters :=
      directUsages.filter (fun u => u.type == UsageType.setter)
    let initializers :=
      directUsages.filter (fun u => u.type == UsageType.initializer)
    let setters : List ResolvedUsage :=
      match coverageOptions with
      | some opts =>
        let runtimeForAtom :=
          opts.runtimeCallsites.filter (fun c => c.atomName == atomName)
        let runtimeUsages : List ResolvedUsage := runtimeForAtom.map (fun c =>
          { atomName := c.atomName, localName := c.calleeName,
            type := UsageType.setter, hook := "setter call",
            file := c.file, line := c.line, resolvedName := c.atomName,
            definitionFile := definition.file,
            writerKind := some WriterKind.runtime })
        let fallbackSetters := (factorySetters.filter (fun f =>
            !(opts.resolvedFactoryKeys.contains (factoryKey f)))).map (fun f =>
          { f with writerKind := some WriterKind.fallback })
        runtimeUsages ++ fallbackSetters
      | none => factorySetters
    let directDependentSelectors :=
      (List.lookup atomName graph.dependentSelectors).getD []
    let transitive :=
      bfsLoop graph (directDependentSelectors.map (fun s => (s, 1))) []
    let directFiles := (readers ++ setters ++ initializers).foldl
      (fun (p : List String × List String) u =>
        (addUniq p.1 u.file, addUniq p.2 u.file)) ([], [])
    let files := transitive.foldl
      (fun (p : List String × List String) dep =>
        let withVia :=
          if dep.viaDefinition.file != "" then addUniq p.1 dep.viaDefinition.file
          else p.1
        (dep.readers ++ dep.setters).foldl
          (fun (q : List String × List String) u =>
            (addUniq q.1 u.file, addUniq q.2 u.file)) (withVia, p.2))
      directFiles
    let summary : ImpactSummary :=
      { totalFiles := files.1.length, totalComponents := files.2.length,
        totalSelectors := transitive.length }
    some
      { target :=
          { name := definition.name, kind := definition.kind,
            file := definition.file, line := definition.line }
        direct :=
          { readers := readers, setters := setters,
            initializers := initializers }
        transitive := transitive
        summary := summary }

/-- Modelled from the spec: the pre-coverage-merge (legacy, pre-Phase-13)
impact computation, which is not present under src/ (only its merged
successor is).  Per the spec it is the same computation with no coverage
options: the write list is exactly the direct factory setter usages, with
no writerKind tagging. -/
def analyzeAtomImpactPreMerge (graph : DependencyGraph) (atomName : String) :
    Option ImpactResult :=
  match List.lookup atomName graph.definitions with
  | none => none
  | some definition =>
    let directUsages := (List.lookup atomName graph.componentUsages).getD []
    let readers := directUsages.filter (fun u => u.type == UsageType.reader)
    let setters := directUsages.filter (fun u => u.type == UsageType.setter)
    let initializers :=
      directUsages.filter (fun u => u.type == UsageType.initializer)
    let directDependentSelectors :=
      (List.lookup atomName graph.dependentSelectors).getD []
    let transitive :=
      bfsLoop graph (directDependentSelectors.map (fun s => (s, 1))) []
    let directFiles := (readers ++ setters ++ initializers).foldl
      (fun (p : List String × List String) u =>
        (addUniq p.1 u.file, addUniq p.2 u.file)) ([], [])
    let files := transitive.foldl
      (fun (p : List String × List String) dep =>
        let withVia :=
          if dep.viaDefinition.file != "" then addUniq p.1 dep.viaDefinition.file
          else p.1
        (dep.readers ++ dep.setters).foldl
          (fun (q : List String × List String) u =>
            (addUniq q.1 u.file, addUniq q.2 u.file)) (withVia, p.2))
      directFiles
    let summary : ImpactSummary :=
      { totalFiles := files.1.length, totalComponents := files.2.length,
        totalSelectors := transitive.length }
    some
      { target :=
          { name := definition.name, kind := definition.kind,
            file := definition.file, line := definition.line }
        direct :=
          { readers := readers, setters := setters,
            initializers := initializers }
        transitive := transitive
        summary := summary }

/-- Analyze the impact of all Recoil definitions in a given file
(src/impact.ts, analyzeFileImpact).  The path.resolve call is an external
filesystem collaborator and is passed in as the resolvePath parameter. -/
def analyzeFileImpact (resolvePath : String → String)
    (graph : DependencyGraph) (filePath : String)
    (extraction : ExtractionResult)
    (coverageOptions : Option CoverageOptions := none) : List ImpactResult :=
  let resolvedPath := resolvePath filePath
  let definitions :=
    extraction.recoilDefinitions.filter (fun d => d.file == resolvedPath)
  definitions.filterMap (fun d => analyzeAtomImpact graph d.name coverageOptions)

/-- Analyze the impact across multiple changed files (src/impact.ts,
analyzeGitImpact). -/
def analyzeGitImpact (resolvePath : String → String)
    (graph : DependencyGraph) (changedFiles : List String)
    (extraction : ExtractionResult)
    (coverageOptions : Option CoverageOptions := none) : List ImpactResult :=
  changedFiles.foldl
    (fun acc filePath =>
      acc ++ analyzeFileImpact resolvePath graph filePath extraction
        coverageOptions) []

/-! ### Usage collector (src/collect-usages.ts)

The walker enters every node in preorder and leaves it after its children;
the collector reacts to enter events (emissions) and maintains two pieces of
running state, the hook alias table (grown by import declarations) and the
function-name stack (pushed and popped around named function declarations).
This is modelled by an explicit event list and a fold over it. -/

/-- Recoil hooks that produce reader usages. -/
def readerHooks : List String := ["useRecoilValue"]

/-- Recoil hooks that produce setter usages. -/
def setterHooks : List String := ["useSetRecoilState", "useResetRecoilState"]

/-- Recoil hooks that produce both reader and setter usages. -/
def dualHooks : List String := ["useRecoilState"]

/-- All Recoil hooks the collector cares about. -/
def allRecoilHooks : List String :=
  readerHooks ++ setterHooks ++ dualHooks ++ ["useRecoilCallback"]

/-- Line of a source offset: one plus the number of newline characters among
the first offset characters. -/
def offsetToLine (source : String) (offset : Nat) : Nat :=
  1 + (source.toList.take offset).count '\n'

/-- Extract the atom name from a hook argument: direct identifier or family
call with identifier callee. -/
def extractAtomName : Option JsNode → Option String
  | some (.ident name) => some name
  | some (.callExpr (.ident name) _ _) => some name
  | _ => none

/-- The case-insensitive starts-with-initialize test used to classify
initializer writes. -/
def isInitializeName (name : String) : Bool :=
  ("initialize".toList).isPrefixOf (name.toList.map Char.toLower)

/-- Check whether the ancestor chain passes through a function (declaration,
named expression or variable-bound function) whose name starts with
initialize, or through a JSXAttribute named initializeState. -/
def isInsideInitializer (ancestors : List JsNode) : Bool :=
  ancestors.any fun a =>
    match a with
    | .funcDecl (some nm) _ _ => isInitializeName nm
    | .varDeclarator (.ident nm) _ => isInitializeName nm
    | .funcExpr (some nm) _ _ => isInitializeName nm
    | .jsxAttr (some nm) _ => nm == "initializeState"
    | _ => false

structure CallbackContext where
  setAlias : Option String := none
  resetAlias : Option String := none
  getPromiseAlias : Option String := none
  snapshotAlias : Option String := none
deriving DecidableEq, Repr

/-- Parse the destructured parameter of a useRecoilCallback callback:
extract the aliases for set, reset and the promise capability (either via
nested snapshot destructuring or via a plain snapshot identifier). -/
def parseCallbackParameter (parameter : JsNode) : CallbackContext :=
  match parameter with
  | .objPattern props =>
    props.foldl
      (fun ctx property =>
        match property with
        | .patProp keyOpt value shorthand =>
          match keyOpt with
          | none => ctx
          | some keyName =>
            if keyName == "" then ctx
            else if keyName == "set" then
              match value with
              | .ident vname =>
                { ctx with
                    setAlias := some (if shorthand then keyName else vname) }
              | _ => ctx
            else if keyName == "reset" then
              match value with
              | .ident vname =>
                { ctx with
                    resetAlias := some (if shorthand then keyName else vname) }
              | _ => ctx
            else if keyName == "snapshot" then
              match value with
              | .objPattern innerProps =>
                { ctx with
                    getPromiseAlias := innerProps.foldl
                      (fun acc inner =>
                        match inner with
                        | .patProp (some ik) ival ish =>
                          if ik == "getPromise" then
                            if ish then some ik
                            else
                              match ival with
                              | .ident iv => some iv
                              | _ => none
                          else acc
                        | _ => acc)
                      ctx.getPromiseAlias }
              | .ident vname =>
                { ctx with
                    snapshotAlias := some (if shorthand then keyName else vname) }
              | _ => ctx
            else ctx
        | _ => ctx)
      {}
  | _ => {}

/-- Emissions for one node visited inside a useRecoilCallback body: the four
independent patterns (set alias call, reset alias call, getPromise alias
call, snapshot.getPromise member call). -/
def callbackCallEmit (context : CallbackContext) (filePath source : String)
    (ancestors : List JsNode) (node : JsNode) : List Usage :=
  match node with
  | .callExpr callee args start =>
    let line := offsetToLine source start
    let setUsages : List Usage :=
      match context.setAlias, callee with
      | some sa, .ident cn =>
        if cn == sa then
          match extractAtomName args.head? with
          | some atomName =>
            [{ atomName := atomName, localName := atomName,
               type := if isInsideInitializer ancestors then
                   UsageType.initializer
                 else UsageType.setter,
               hook := "set(callback)", file := filePath, line := line }]
          | none => []
        else []
      | _, _ => []
    let resetUsages : List Usage :=
      match context.resetAlias, callee with
      | some ra, .ident cn =>
        if cn == ra then
          match extractAtomName args.head? with
          | some atomName =>
            [{ atomName := atomName, localName := atomName,
               type := UsageType.setter, hook := "reset(callback)",
               file := filePath, line := line }]
          | none => []
        else []
      | _, _ => []
    let getPromiseUsages : List Usage :=
      match context.getPromiseAlias, callee with
      | some ga, .ident cn =>
        if cn == ga then
          match extractAtomName args.head? with
          | some atomName =>
            [{ atomName := atomName, localName := atomName,
               type := UsageType.reader, hook := "getPromise(callback)",
               file := filePath, line := line }]
          | none => []
        else []
      | _, _ => []
    let snapshotUsages : List Usage :=
      match context.snapshotAlias, callee with
      | some sn, .member (.ident obj) (.ident prop) =>
        if obj == sn && prop == "getPromise" then
          match extractAtomName args.head? with
          | some atomName =>
            [{ atomName := atomName, localName := atomName,
               type := UsageType.reader, hook := "getPromise(callback)",
               file := filePath, line := line }]
          | none => []
        else []
      | _, _ => []
    setUsages ++ resetUsages ++ getPromiseUsages ++ snapshotUsages
  | _ => []

/-- Walk a useRecoilCallback body for set, reset, getPromise and
snapshot.getPromise calls. -/
def walkCallbackBody (bodyNode : JsNode) (context : CallbackContext)
    (filePath source : String) (ancestors : List JsNode) : List Usage :=
  (allNodes bodyNode).flatMap (callbackCallEmit context filePath source ancestors)

/-- Emissions for one node visited inside a selector get body: calls to the
identifier named get. -/
def selectorGetEmit (filePath source definitionName : String) (node : JsNode) :
    List Usage :=
  match node with
  | .callExpr (.ident cn) args start =>
    if cn == "get" then
      match extractAtomName args.head? with
      | some atomName =>
        [{ atomName := atomName, localName := atomName,
           type := UsageType.reader, hook := "get(selector)",
           file := filePath, line := offsetToLine source start,
           enclosingDefinition := some definitionName }]
      | none => []
    else []
  | _ => []

/-- Walk a selector get body (or inline default get body) for get calls. -/
def walkSelectorGetBody (bodyNode : JsNode) (filePath source : String)
    (definitionName : String) : List Usage :=
  (allNodes bodyNode).flatMap (selectorGetEmit filePath source definitionName)

/-- Enter/leave events of the walker, in order.  Enter events carry the
ancestor chain from the root down to and including the entered node, exactly
as the collector sees its mutable ancestors array at that moment. -/
inductive WalkEvent where
  | enter (node : JsNode) (ancestors : List JsNode)
  | leave (node : JsNode)

mutual
/-- The walker event stream of a subtree: enter the node, walk the children
in order, leave the node. -/
def walkEvents : JsNode → List JsNode → List WalkEvent
  | .program body, anc =>
    .enter (.program body) (anc ++ [.program body]) ::
      (walkEventsList body (anc ++ [.program body]) ++ [.leave (.program body)])
  | .importDecl s t sp, anc =>
    [.enter (.importDecl s t sp) (anc ++ [.importDecl s t sp]),
     .leave (.importDecl s t sp)]
  | .callExpr callee args st, anc =>
    .enter (.callExpr callee args st) (anc ++ [.callExpr callee args st]) ::
      (walkEvents callee (anc ++ [.callExpr callee args st]) ++
        walkEventsList args (anc ++ [.callExpr callee args st]) ++
        [.leave (.callExpr callee args st)])
  | .ident n, anc => [.enter (.ident n) (anc ++ [.ident n]), .leave (.ident n)]
  | .funcDecl n params body, anc =>
    .enter (.funcDecl n params body) (anc ++ [.funcDecl n params body]) ::
      (walkEventsList params (anc ++ [.funcDecl n params body]) ++
        walkEvents body (anc ++ [.funcDecl n params body]) ++
        [.leave (.funcDecl n params body)])
  | .funcExpr n params body, anc =>
    .enter (.funcExpr n params body) (anc ++ [.funcExpr n params body]) ::
      (walkEventsList params (anc ++ [.funcExpr n params body]) ++
        walkEvents body (anc ++ [.funcExpr n params body]) ++
        [.leave (.funcExpr n params body)])
  | .arrowFn params body, anc =>
    .enter (.arrowFn params body) (anc ++ [.arrowFn params body]) ::
      (walkEventsList params (anc ++ [.arrowFn params body]) ++
        walkEvents body (anc ++ [.arrowFn params body]) ++
        [.leave (.arrowFn params body)])
  | .varDeclarator id init, anc =>
    .enter (.varDeclarator id init) (anc ++ [.varDeclarator id init]) ::
      (walkEvents id (anc ++ [.varDeclarator id init]) ++
        (match init with
         | some i => walkEvents i (anc ++ [.varDeclarator id init])
         | none => []) ++
        [.leave (.varDeclarator id init)])
  | .member obj prop, anc =>
    .enter (.member obj prop) (anc ++ [.member obj prop]) ::
      (walkEvents obj (anc ++ [.member obj prop]) ++
        walkEvents prop (anc ++ [.member obj prop]) ++
        [.leave (.member obj prop)])
  | .objPattern props, anc =>
    .enter (.objPattern props) (anc ++ [.objPattern props]) ::
      (walkEventsList props (anc ++ [.objPattern props]) ++
        [.leave (.objPattern props)])
  | .patProp k v sh, anc =>
    .enter (.patProp k v sh) (anc ++ [.patProp k v sh]) ::
      (walkEvents v (anc ++ [.patProp k v sh]) ++ [.leave (.patProp k v sh)])
  | .jsxAttr n cs, anc =>
    .enter (.jsxAttr n cs) (anc ++ [.jsxAttr n cs]) ::
      (walkEventsList cs (anc ++ [.jsxAttr n cs]) ++ [.leave (.jsxAttr n cs)])
  | .block stmts, anc =>
    .enter (.block stmts) (anc ++ [.block stmts]) ::
      (walkEventsList stmts (anc ++ [.block stmts]) ++ [.leave (.block stmts)])
  | .returnStmt arg, anc =>
    .enter (.returnStmt arg) (anc ++ [.returnStmt arg]) ::
      ((match arg with
        | some a => walkEvents a (anc ++ [.returnStmt arg])
        | none => []) ++
        [.leave (.returnStmt arg)])
  | .arrayPattern elements, anc =>
    .enter (.arrayPattern elements) (anc ++ [.arrayPattern elements]) ::
      (walkEventsOptList elements (anc ++ [.arrayPattern elements]) ++
        [.leave (.arrayPattern elements)])
  | .other cs, anc =>
    .enter (.other cs) (anc ++ [.other cs]) ::
      (walkEventsList cs (anc ++ [.other cs]) ++ [.leave (.other cs)])

def walkEventsList : List JsNode → List JsNode → List WalkEvent
  | [], _ => []
  | n :: ns, anc => walkEvents n anc ++ walkEventsList ns anc

def walkEventsOptList : List (Option JsNode) → List JsNode → List WalkEvent
  | [], _ => []
  | some n :: ns, anc => walkEvents n anc ++ walkEventsOptList ns anc
  | none :: ns, anc => walkEventsOptList ns anc
end

/-- The running state of collectFromFile: the hook alias table and the stack
of names of enclosing function declarations. -/
structure CState where
  hookAliases : List (String × String)
  functionNameStack : List String

def initCState : CState := { hookAliases := [], functionNameStack := [] }

/-- The alias-driven part of the call dispatch in collectFromFile: look the
callee up in the hook alias table and emit according to which canonical hook
it is. -/
def aliasHookEmit (filePath source : String)
    (hookAliases : List (String × String)) (ancestors : List JsNode)
    (calleeName : String) (args : List JsNode) (start : Nat) : List Usage :=
  match List.lookup calleeName hookAliases with
  | none => []
  | some hookName =>
    let line := offsetToLine source start
    if hookName == "useRecoilValue" then
      match extractAtomName args.head? with
      | some atomName =>
        [{ atomName := atomName, localName := atomName,
           type := UsageType.reader, hook := "useRecoilValue",
           file := filePath, line := line }]
      | none => []
    else if hookName == "useSetRecoilState" then
      match extractAtomName args.head? with
      | some atomName =>
        [{ atomName := atomName, localName := atomName,
           type := UsageType.setter, hook := "useSetRecoilState",
           file := filePath, line := line }]
      | none => []
    else if hookName == "useResetRecoilState" then
      match extractAtomName args.head? with
      | some atomName =>
        [{ atomName := atomName, localName := atomName,
           type := UsageType.setter, hook := "useResetRecoilState",
           file := filePath, line := line }]
      | none => []
    else if hookName == "useRecoilState" then
      match extractAtomName args.head? with
      | some atomName =>
        [{ atomName := atomName, localName := atomName,
           type := UsageType.reader, hook := "useRecoilState",
           file := filePath, line := line },
         { atomName := atomName, localName := atomName,
           type := UsageType.setter, hook := "useRecoilState",
           file := filePath, line := line }]
      | none => []
    else if hookName == "useRecoilCallback" then
      match args.head? with
      | some (.arrowFn params body) =>
        (match params with
         | [] => []
         | p :: _ =>
           walkCallbackBody body (parseCallbackParameter p) filePath source
             ancestors)
      | some (.funcExpr _ params body) =>
        (match params with
         | [] => []
         | p :: _ =>
           walkCallbackBody body (parseCallbackParameter p) filePath source
             ancestors)
      | _ => []
    else []

/-- Emissions of one enter event of collectFromFile.  Only call expressions
with an identifier callee emit: first the bare-set initializer path (which
short-circuits the alias dispatch when the innermost tracked function
declaration name passes the initialize test), then the alias dispatch. -/
def enterEmit (filePath source : String) (st : CState) (node : JsNode)
    (ancestors : List JsNode) : List Usage :=
  match node with
  | .callExpr (.ident calleeName) args start =>
    if calleeName == "set" && !st.functionNameStack.isEmpty then
      match st.functionNameStack.getLast? with
      | some currentFunction =>
        if isInitializeName currentFunction then
          match extractAtomName args.head? with
          | some atomName =>
            [{ atomName := atomName, localName := atomName,
               type := UsageType.initializer, hook := "set(initializer)",
               file := filePath, line := offsetToLine source start }]
          | none => []
        else
          aliasHookEmit filePath source st.hookAliases ancestors calleeName
            args start
      | none =>
        aliasHookEmit filePath source st.hookAliases ancestors calleeName
          args start
    else
      aliasHookEmit filePath source st.hookAliases ancestors calleeName args
        start
  | _ => []

/-- State transition of one walker event: import declarations from the
recoil module grow the alias table; named function declarations push on
enter and pop on leave. -/
def stateUpdate (st : CState) (ev : WalkEvent) : CState :=
  match ev with
  | .enter (.funcDecl (some n) _ _) _ =>
    { st with functionNameStack := st.functionNameStack ++ [n] }
  | .enter (.importDecl importSource typeOnly specs) _ =>
    if importSource == "recoil" && !typeOnly then
      { st with
          hookAliases := specs.foldl
            (fun m spec =>
              if !spec.2.2 && allRecoilHooks.contains spec.1 then
                insertM m spec.2.1 spec.1
              else m)
            st.hookAliases }
    else st
  | .enter _ _ => st
  | .leave (.funcDecl (some _) _ _) =>
    { st with functionNameStack := st.functionNameStack.dropLast }
  | .leave _ => st

/-- Fold the event stream: emissions of each enter event under the state
accumulated so far, in stream order. -/
def runCollect (filePath source : String) :
    List WalkEvent → CState → List Usage
  | [], _ => []
  | ev :: evs, st =>
    (match ev with
     | .enter node ancestors => enterEmit filePath source st node ancestors
     | .leave _ => []) ++ runCollect filePath source evs (stateUpdate st ev)

/-- Collect all Recoil usages from a single file (parse failure is silently
skipped; the parser is the external collaborator passed as the parse
oracle). -/
def collectFromFile (filePath source : String)
    (parse : String → String → Option JsNode) : List Usage :=
  match parse filePath source with
  | none => []
  | some program => runCollect filePath source (walkEvents program []) initCState

/-- Walk selector get bodies and inline default get bodies from the
extraction results (file reads are the external collaborator passed as the
readFileSource oracle; unreadable files are skipped). -/
def collectFromSelectorBodies (extraction : ExtractionResult)
    (readFileSource : String → Option String) : List Usage :=
  extraction.recoilDefinitions.foldl
    (fun acc d =>
      match readFileSource d.file with
      | none => acc
      | some source =>
        let standalone :=
          if d.kind == StateKind.selector || d.kind == StateKind.selectorFamily
          then
            match d.getBodyAst with
            | some b => walkSelectorGetBody b d.file source d.name
            | none => []
          else []
        let inlineDefault :=
          if d.kind == StateKind.atom || d.kind == StateKind.atomFamily then
            match d.inlineDefaultGetBody with
            | some b => walkSelectorGetBody b d.file source d.name
            | none => []
          else []
        acc ++ standalone ++ inlineDefault)
    []

/-- Collect all Recoil usages: the per-file hook pass followed by the
selector-body pass. -/
def collectUsages (files : List String)
    (readFileSource : String → Option String)
    (parse : String → String → Option JsNode)
    (extraction : ExtractionResult) : List Usage :=
  let hookUsages := files.foldl
    (fun acc filePath =>
      match readFileSource filePath with
      | none => acc
      | some source => acc ++ collectFromFile filePath source parse)
    []
  hookUsages ++ collectFromSelectorBodies extraction readFileSource

/-! ### Identifier resolver (src/resolve.ts)

The import/re-export tables of each file are produced by parsing and
filesystem resolution (external collaborators); the resolver logic proper
receives them as the file graph.  The recursive chain walker is depth-capped
at maxChainDepth and cycle-guarded by a visited set of file:name keys. -/

/-- Maximum depth for following import/re-export chains. -/
def maxChainDepth : Nat := 5

structure ImportRecord where
  localName : String
  exportedName : String
  sourceFile : String
deriving DecidableEq, Repr

inductive ReExportType where
  | named
  | star
deriving DecidableEq, Repr

structure ReExportRecord where
  type : ReExportType
  localName : Option String := none
  exportedName : Option String := none
  sourceFile : String
deriving DecidableEq, Repr

structure FileInfo where
  imports : List ImportRecord
  reExports : List ReExportRecord
  localExports : List String := []
deriving DecidableEq, Repr

/-- Per-file import/re-export tables, keyed by file path. -/
abbrev FileGraph := List (String × FileInfo)

/-- Definition lookup: file path to (exported name to canonical name). -/
abbrev DefinitionLookup := List (String × List (String × String))

/-- One step of buildDefinitionLookup: create the per-file map when absent,
then set name to itself. -/
def addDefEntry (lookup : DefinitionLookup) (file name : String) :
    DefinitionLookup :=
  match lookup with
  | [] => [(file, [(name, name)])]
  | (f, m) :: rest =>
    if f == file then (f, insertM m name name) :: rest
    else (f, m) :: addDefEntry rest file name

def buildDefinitionLookup (extraction : ExtractionResult) : DefinitionLookup :=
  extraction.recoilDefinitions.foldl
    (fun lookup d => addDefEntry lookup d.file d.name) []

structure ResolvedTarget where
  resolvedName : String
  definitionFile : String
deriving DecidableEq, Repr

/-- The recursive body of resolveExportedName, structurally recursive on the
remaining budget maxChainDepth + 1 - depth (the source guard depth >
maxChainDepth holds exactly when the budget is zero).  The visited set is a
single mutable set in the source, shared across the star-re-export loop, so
it is threaded through and returned. -/
def resolveExportedNameAux : Nat → String → String → FileGraph →
    DefinitionLookup → List String → Option ResolvedTarget × List String
  | 0, _, _, _, _, visited => (none, visited)
  | budget + 1, file, name, graph, definitionLookup, visited =>
    let visitKey := file ++ ":" ++ name
    if visited.contains visitKey then (none, visited)
    else
      let visited := visitKey :: visited
      match (List.lookup file definitionLookup).bind
          (fun fileDefs => List.lookup name fileDefs) with
      | some resolvedName =>
        (some { resolvedName := resolvedName, definitionFile := file }, visited)
      | none =>
        match List.lookup file graph with
        | none => (none, visited)
        | some fileInfo =>
          match fileInfo.reExports.find?
              (fun re => re.type == ReExportType.named &&
                re.localName == some name) with
          | some re =>
            resolveExportedNameAux budget re.sourceFile
              (re.exportedName.getD "") graph definitionLookup visited
          | none =>
            let starResult := fileInfo.reExports.foldl
              (fun (acc : Option ResolvedTarget × List String) re =>
                match acc.1 with
                | some _ => acc
                | none =>
                  if re.type == ReExportType.star then
                    resolveExportedNameAux budget re.sourceFile name graph
                      definitionLookup acc.2
                  else acc)
              (none, visited)
            match starResult.1 with
            | some r => (some r, starResult.2)
            | none =>
              match fileInfo.imports.find?
                  (fun ir => ir.localName == name) with
              | some ir =>
                resolveExportedNameAux budget ir.sourceFile ir.exportedName
                  graph definitionLookup starResult.2
              | none => (none, starResult.2)

/-- Resolve a name exported from a file by following re-export chains:
check the local definitions, then named re-exports, then star re-exports,
then import-then-local-export, with the depth cap and the visited set. -/
def resolveExportedName (file name : String) (graph : FileGraph)
    (definitionLookup : DefinitionLookup) (depth : Nat)
    (visited : List String) : Option ResolvedTarget :=
  (resolveExportedNameAux (maxChainDepth + 1 - depth) file name graph
    definitionLookup visited).1

/-- Usage spread into a ResolvedUsage with the two resolution fields. -/
def toResolvedUsage (u : Usage) (resolvedName definitionFile : String) :
    ResolvedUsage :=
  { atomName := u.atomName, localName := u.localName, type := u.type,
    hook := u.hook, file := u.file, line := u.line,
    enclosingDefinition := u.enclosingDefinition,
    resolvedName := resolvedName, definitionFile := definitionFile }

/-- Resolve every usage to a canonical definition name: same-file
definitions first, then the first matching import followed through
resolveExportedName; unresolved usages are dropped silently.  The file
graph construction (parsing plus filesystem module resolution) is the
external collaborator and is received as the graph argument. -/
def resolveUsages (graph : FileGraph) (extraction : ExtractionResult)
    (usages : List Usage) : List ResolvedUsage :=
  let definitionLookup := buildDefinitionLookup extraction
  usages.foldl
    (fun resolved usage =>
      match (List.lookup usage.file definitionLookup).bind
          (fun localDefs => List.lookup usage.localName localDefs) with
      | some rn => resolved ++ [toResolvedUsage usage rn usage.file]
      | none =>
        match List.lookup usage.file graph with
        | none => resolved
        | some fileInfo =>
          match fileInfo.imports.find?
              (fun ir => ir.localName == usage.localName) with
          | none => resolved
          | some ir =>
            match resolveExportedName ir.sourceFile ir.exportedName graph
                definitionLookup 1 [] with
            | some result =>
              resolved ++
                [toResolvedUsage usage result.resolvedName
                  result.definitionFile]
            | none => resolved)
    []

/-! ### Writer-binding resolver (src/setter-bindings.ts) and runtime
callsite scanner (src/setter-callsites.ts)

The callee-to-function-definition resolution walks other files through the
filesystem and the parser; it is received as the resolveCallee oracle.
Parsing a file is likewise received as an oracle. -/

/-- Recoil hooks that produce setter-only bindings. -/
def setterHookNames : List String := ["useSetRecoilState", "useResetRecoilState"]

/-- Recoil hooks that produce tuple (reader plus setter) bindings. -/
def tupleHookNames : List String := ["useRecoilState"]

/-- All setter-related Recoil hooks. -/
def allSetterHooks : List String := setterHookNames ++ tupleHookNames

inductive HookWriteBindingKind where
  | setter
  | tuple
deriving DecidableEq, Repr

structure HookWriteBinding where
  kind : HookWriteBindingKind
  stateId : String
deriving DecidableEq, Repr

/-- Build the setter-hook alias table of a file from its recoil import
declarations (getRecoilHookAliases). -/
def getRecoilHookAliases (ast : JsNode) : List (String × String) :=
  (allNodes ast).foldl
    (fun aliases node =>
      match node with
      | .importDecl importSource typeOnly specs =>
        if importSource == "recoil" && !typeOnly then
          specs.foldl
            (fun m spec =>
              if !spec.2.2 && allSetterHooks.contains spec.1 then
                insertM m spec.2.1 spec.1
              else m)
            aliases
        else aliases
      | _ => aliases)
    []

/-- Check whether a call expression is a direct Recoil setter/tuple hook
call and resolve the bound atom name from its first argument. -/
def resolveDirectHookWriteBinding (callExpr : JsNode)
    (hookAliases : List (String × String)) : Option HookWriteBinding :=
  match callExpr with
  | .callExpr (.ident calleeName) args _ =>
    match List.lookup calleeName hookAliases with
    | none => none
    | some canonicalHook =>
      match extractAtomName args.head? with
      | none => none
      | some atomName =>
        if setterHookNames.contains canonicalHook then
          some { kind := HookWriteBindingKind.setter, stateId := atomName }
        else if tupleHookNames.contains canonicalHook then
          some { kind := HookWriteBindingKind.tuple, stateId := atomName }
        else none
  | _ => none

/-- Result of resolving a callee to its defining function. -/
structure FunctionDefinitionResult where
  body : JsNode
  file : String
  line : Nat
  isArrowShorthand : Bool
  hookAliases : List (String × String)

/-- First ReturnStatement carrying an argument, in walk (preorder) order.
The walker visits children even after the enter callback returns early, so
the search does descend into nested function literals exactly as the
source walk does. -/
def findFirstReturnInOwnScope (blockNode : JsNode) : Option JsNode :=
  (allNodes blockNode).findSome?
    (fun n =>
      match n with
      | .returnStmt (some argument) => some argument
      | _ => none)

/-- Return expression of a wrapper function: the body itself for an arrow
shorthand, the first argument-carrying return statement otherwise. -/
def getReturnExpression (functionDef : FunctionDefinitionResult) :
    Option JsNode :=
  if functionDef.isArrowShorthand then some functionDef.body
  else findFirstReturnInOwnScope functionDef.body

/-- Try the direct-resolution check on the return expression of a wrapper
function definition. -/
def analyzeWrapperReturnExpression (functionDef : FunctionDefinitionResult) :
    Option HookWriteBinding :=
  match getReturnExpression functionDef with
  | none => none
  | some returnExpr =>
    match returnExpr with
    | .callExpr _ _ _ =>
      resolveDirectHookWriteBinding returnExpr functionDef.hookAliases
    | _ => none

/-- Resolve a call expression to a write binding: direct resolution first,
then single-level wrapper resolution through the callee oracle, memoized by
the wrapper file:line key.  The cache is threaded and returned. -/
def resolveHookWriteBinding
    (resolveCallee : String → String → Option FunctionDefinitionResult)
    (callExpr : JsNode) (file : String)
    (hookAliases : List (String × String))
    (wrapperCache : List (String × Option HookWriteBinding)) :
    Option HookWriteBinding × List (String × Option HookWriteBinding) :=
  match resolveDirectHookWriteBinding callExpr hookAliases with
  | some directBinding => (some directBinding, wrapperCache)
  | none =>
    match callExpr with
    | .callExpr (.ident calleeName) _ _ =>
      (match resolveCallee calleeName file with
       | none => (none, wrapperCache)
       | some functionDef =>
         let cacheKey := functionDef.file ++ ":" ++ toString functionDef.line
         match List.lookup cacheKey wrapperCache with
         | some cached => (cached, wrapperCache)
         | none =>
           let binding := analyzeWrapperReturnExpression functionDef
           (binding, insertM wrapperCache cacheKey binding))
    | _ => (none, wrapperCache)

/-- Map the declared identifiers of a declarator into the binding map: a
simple identifier for the setter shape, the second array-pattern element for
the tuple shape. -/
def bindSetterIdentifiers (declarator : JsNode) (binding : HookWriteBinding)
    (file : String) (setterBindings : List (String × String)) :
    List (String × String) :=
  match declarator with
  | .varDeclarator (.ident name) _ =>
    if binding.kind == HookWriteBindingKind.setter then
      insertM setterBindings (file ++ ":" ++ name) binding.stateId
    else setterBindings
  | .varDeclarator (.arrayPattern elements) _ =>
    if binding.kind == HookWriteBindingKind.tuple &&
        decide (elements.length ≥ 2) then
      match (elements[1]? : Option (Option JsNode)) with
      | some (some (.ident name)) =>
        insertM setterBindings (file ++ ":" ++ name) binding.stateId
      | _ => setterBindings
    else setterBindings
  | _ => setterBindings

/-- Walk all files, find variable declarators with call-expression
initializers, run the resolution pipeline and build the setter binding map,
also tracking the resolved factory keys: when a binding was produced via the
wrapper path (the direct check failed), the wrapper function definition
file:line is recorded as resolved. -/
def buildSetterBindings (files : List String)
    (parseFile : String → Option JsNode)
    (resolveCallee : String → String → Option FunctionDefinitionResult) :
    List (String × String) × List String :=
  let result := files.foldl
    (fun (st : List (String × String) ×
        List (String × Option HookWriteBinding) × List String) file =>
      match parseFile file with
      | none => st
      | some ast =>
        let hookAliases := getRecoilHookAliases ast
        (allNodes ast).foldl
          (fun st node =>
            match node with
            | .varDeclarator id (some (.callExpr callee args start)) =>
              let declarator := JsNode.varDeclarator id
                (some (.callExpr callee args start))
              let callExpr := JsNode.callExpr callee args start
              let step := resolveHookWriteBinding resolveCallee callExpr file
                hookAliases st.2.1
              (match step.1 with
               | none => (st.1, step.2, st.2.2)
               | some binding =>
                 let setterBindings :=
                   bindSetterIdentifiers declarator binding file st.1
                 match resolveDirectHookWriteBinding callExpr hookAliases with
                 | some _ => (setterBindings, step.2, st.2.2)
                 | none =>
                   (match callee with
                    | .ident calleeName =>
                      (match resolveCallee calleeName file with
                       | some functionDef =>
                         (setterBindings, step.2,
                           addUniq st.2.2
                             (functionDef.file ++ ":" ++
                               toString functionDef.line))
                       | none => (setterBindings, step.2, st.2.2))
                    | _ => (setterBindings, step.2, st.2.2)))
            | _ => st)
          st)
    ([], [], [])
  (result.1, result.2.2)

/-- Scan all files for call expressions whose callee is a bound setter
identifier and emit a runtime write callsite for each (for a call with a
bare identifier callee, the callee token starts at the call start
offset). -/
def collectRuntimeWriteCallsites (files : List String)
    (readSource : String → Option String)
    (parse : String → String → Option JsNode)
    (setterBindings : List (String × String)) : List RuntimeWriteCallsite :=
  files.foldl
    (fun callsites file =>
      match readSource file with
      | none => callsites
      | some source =>
        match parse file source with
        | none => callsites
        | some ast =>
          (allNodes ast).foldl
            (fun acc node =>
              match node with
              | .callExpr (.ident calleeName) _ start =>
                (match List.lookup (file ++ ":" ++ calleeName) setterBindings
                 with
                 | some atomName =>
                   acc ++
                     [{ atomName := atomName, file := file,
                        line := offsetToLine source start,
                        calleeName := calleeName }]
                 | none => acc)
              | _ => acc)
            callsites)
    []

/-! ### Helper lemmas about the impact engine -/

theorem analyzeAtomImpact_none_iff (g : DependencyGraph) (n : String)
    (o : Option CoverageOptions) :
    analyzeAtomImpact g n o = none ↔ List.lookup n g.definitions = none := by
  unfold analyzeAtomImpact
  cases List.lookup n g.definitions <;> simp

theorem analyzeAtomImpact_isSome (g : DependencyGraph) (n : String)
    (o : Option CoverageOptions)
    (h : (List.lookup n g.definitions).isSome) :
    (analyzeAtomImpact g n o).isSome := by
  unfold analyzeAtomImpact
  cases hl : List.lookup n g.definitions with
  | none => rw [hl] at h; simp at h
  | some d => simp

theorem analyzeAtomImpact_transitive (g : DependencyGraph) (n : String)
    (o : Option CoverageOptions) (d : RecoilDefinition) (r : ImpactResult)
    (hdef : List.lookup n g.definitions = some d)
    (h : analyzeAtomImpact g n o = some r) :
    r.transitive =
      bfsLoop g
        (((List.lookup n g.dependentSelectors).getD []).map (fun s => (s, 1)))
        [] := by
  unfold analyzeAtomImpact at h
  rw [hdef] at h
  simp only [Option.some.injEq] at h
  rw [← h]

/-! ### Concrete fixtures used by the witnesses -/

def defFoo : RecoilDefinition :=
  { name := "fooState", kind := StateKind.atom, file := "/app/atoms.ts",
    line := 1 }

def usageSetFoo : ResolvedUsage :=
  { atomName := "fooState", localName := "fooState",
    type := UsageType.setter, hook := "useSetRecoilState",
    file := "/app/component.tsx", line := 6, resolvedName := "fooState",
    definitionFile := "/app/atoms.ts" }

def graphFoo : DependencyGraph :=
  { dependentSelectors := [],
    componentUsages := [("fooState", [usageSetFoo])],
    definitions := [("fooState", defFoo)] }

def covFoo : CoverageOptions :=
  { runtimeCallsites :=
      [{ atomName := "fooState", file := "/app/component.tsx", line := 20,
         calleeName := "setFoo" }],
    resolvedFactoryKeys := ["/app/component.tsx:6"] }

/-! ### Claims -/

/-- C8: for every graph and every name absent from the definitions map,
analyzeAtomImpact returns the distinguished not-found value (none) — and it
returns none exactly in that case, independently of every other component of
the graph and of the coverage options.  It is a total function, so it never
throws. -/
theorem claim_C8 (graph : DependencyGraph) (atomName : String)
    (coverageOptions : Option CoverageOptions) :
    analyzeAtomImpact graph atomName coverageOptions = none ↔
      List.lookup atomName graph.definitions = none :=
  analyzeAtomImpact_none_iff graph atomName coverageOptions

/-- C3: for every dependency graph (cycles and diamonds included) and every
target, each name appears at most once in the transitive list; the traversal
is a total function (its recursion is well-founded by the visited-set
measure), which is the termination claim. -/
theorem claim_C3 (graph : DependencyGraph) (atomName : String)
    (coverageOptions : Option CoverageOptions) (r : ImpactResult)
    (h : analyzeAtomImpact graph atomName coverageOptions = some r) :
    (r.transitive.map (fun t => t.via)).Nodup := by
  cases hdef : List.lookup atomName graph.definitions with
  | none =>
    rw [(analyzeAtomImpact_none_iff graph atomName coverageOptions).mpr hdef]
      at h
    simp at h
  | some d =>
    rw [analyzeAtomImpact_transitive graph atomName coverageOptions d r hdef h]
    exact (bfsLoop_vias_nodup graph _ []).1

/-- The legacy-mode impact result of graphFoo at its single atom. -/
def rFooLegacy : ImpactResult :=
  { target :=
      { name := "fooState", kind := StateKind.atom, file := "/app/atoms.ts",
        line := 1 }
    direct := { readers := [], setters := [usageSetFoo], initializers := [] }
    transitive := []
    summary := { totalFiles := 1, totalComponents := 1, totalSelectors := 0 } }

theorem graphFoo_eval_legacy :
    analyzeAtomImpact graphFoo ("fooState") none = some rFooLegacy := by
  unfold analyzeAtomImpact
  simp [graphFoo, defFoo, usageSetFoo, rFooLegacy, List.lookup, bfsLoop_nil,
    addUniq]

/-- The runtime-usage record produced for the covFoo callsite. -/
def runtimeUsageFoo : ResolvedUsage :=
  { atomName := "fooState", localName := "setFoo", type := UsageType.setter,
    hook := "setter call", file := "/app/component.tsx", line := 20,
    resolvedName := "fooState", definitionFile := "/app/atoms.ts",
    writerKind := some WriterKind.runtime }

/-- The coverage-mode impact result of graphFoo: the resolved factory site
is superseded by its runtime callsite. -/
def rFooCov : ImpactResult :=
  { target :=
      { name := "fooState", kind := StateKind.atom, file := "/app/atoms.ts",
        line := 1 }
    direct :=
      { readers := [], setters := [runtimeUsageFoo], initializers := [] }
    transitive := []
    summary := { totalFiles := 1, totalComponents := 1, totalSelectors := 0 } }

theorem graphFoo_eval_cov :
    analyzeAtomImpact graphFoo ("fooState") (some covFoo) = some rFooCov := by
  unfold analyzeAtomImpact
  simp [graphFoo, defFoo, usageSetFoo, covFoo, rFooCov, runtimeUsageFoo,
    List.lookup, bfsLoop_nil, addUniq, factoryKey]
  decide

/-- Witness for C3 at a concrete one-atom graph. -/
theorem claim_C3_witness :
    ∃ r, analyzeAtomImpact graphFoo ("fooState") none = some r ∧
      (r.transitive.map (fun t => t.via)).Nodup :=
  ⟨rFooLegacy, graphFoo_eval_legacy,
    claim_C3 graphFoo ("fooState") none rFooLegacy graphFoo_eval_legacy⟩

/-- C4: with coverage options omitted the computation coincides with the
spec-modelled pre-merge computation, and the direct setters list is exactly
the direct usages of setter type, in order, with no writerKind tagging
added and nothing added or removed. -/
theorem claim_C4 :
    (∀ (graph : DependencyGraph) (atomName : String),
      analyzeAtomImpact graph atomName none =
        analyzeAtomImpactPreMerge graph atomName) ∧
    (∀ (graph : DependencyGraph) (atomName : String) (r : ImpactResult),
      analyzeAtomImpact graph atomName none = some r →
      r.direct.setters =
        ((List.lookup atomName graph.componentUsages).getD []).filter
          (fun u => u.type == UsageType.setter)) := by
  constructor
  · intro graph atomName
    unfold analyzeAtomImpact analyzeAtomImpactPreMerge
    cases List.lookup atomName graph.definitions <;> rfl
  · intro graph atomName r h
    unfold analyzeAtomImpact at h
    cases hl : List.lookup atomName graph.definitions with
    | none => rw [hl] at h; simp at h
    | some d =>
      rw [hl] at h
      simp only [Option.some.injEq] at h
      rw [← h]

/-- Witness for C4 at the concrete one-atom graph. -/
theorem claim_C4_witness :
    (analyzeAtomImpact graphFoo ("fooState") none =
      analyzeAtomImpactPreMerge graphFoo ("fooState")) ∧
    ∃ r, analyzeAtomImpact graphFoo ("fooState") none = some r ∧
      r.direct.setters = [usageSetFoo] := by
  refine ⟨claim_C4.1 graphFoo ("fooState"),
    rFooLegacy, graphFoo_eval_legacy, ?_⟩
  rw [claim_C4.2 graphFoo ("fooState") rFooLegacy graphFoo_eval_legacy]
  decide

/-- C1: with coverage options supplied, the setters list is exactly the
runtime entries for the target (in callsite order, usage-shaped, tagged
setter call and runtime) followed by the fallback entries (the direct
setter usages whose file:line key is not resolved, in original order,
keeping their hook, tagged fallback); and a direct setter usage whose key
is resolved appears nowhere in the list. -/
theorem claim_C1 (graph : DependencyGraph) (atomName : String)
    (opts : CoverageOptions) (definition : RecoilDefinition)
    (r : ImpactResult)
    (hdef : List.lookup atomName graph.definitions = some definition)
    (himp : analyzeAtomImpact graph atomName (some opts) = some r) :
    (r.direct.setters =
      (opts.runtimeCallsites.filter (fun c => c.atomName == atomName)).map
        (fun c =>
          { atomName := c.atomName, localName := c.calleeName,
            type := UsageType.setter, hook := "setter call", file := c.file,
            line := c.line, enclosingDefinition := none,
            resolvedName := c.atomName, definitionFile := definition.file,
            writerKind := some WriterKind.runtime }) ++
      ((((List.lookup atomName graph.componentUsages).getD []).filter
          (fun u => u.type == UsageType.setter)).filter
        (fun f => !(opts.resolvedFactoryKeys.contains (factoryKey f)))).map
        (fun f => { f with writerKind := some WriterKind.fallback })) ∧
    ∀ u ∈ ((List.lookup atomName graph.componentUsages).getD []).filter
        (fun u => u.type == UsageType.setter),
      opts.resolvedFactoryKeys.contains (factoryKey u) = true →
      u.writerKind = none → u ∉ r.direct.setters := by
  unfold analyzeAtomImpact at himp
  rw [hdef] at himp
  simp only [Option.some.injEq] at himp
  subst himp
  constructor
  · rfl
  · intro u hu hkey hwk hmem
    simp only [DirectUsages.setters] at hmem
    rcases List.mem_append.mp hmem with hrt | hfb
    · obtain ⟨c, hc, hcu⟩ := List.mem_map.mp hrt
      have : u.writerKind = some WriterKind.runtime := by
        rw [← hcu]
      rw [hwk] at this
      exact Option.noConfusion this
    · obtain ⟨f, hf, hfu⟩ := List.mem_map.mp hfb
      have hkeyf : factoryKey f = factoryKey u := by
        rw [← hfu]
        rfl
      have := List.of_mem_filter hf
      rw [hkeyf, hkey] at this
      simp at this

/-- Witness for C1 at the concrete covFoo scenario: one runtime callsite
for the target, and the single factory setter resolved away. -/
theorem claim_C1_witness :
    ∃ r, analyzeAtomImpact graphFoo ("fooState") (some covFoo) = some r ∧
      r.direct.setters = [runtimeUsageFoo] ∧ usageSetFoo ∉ r.direct.setters := by
  obtain ⟨heq, hnotin⟩ := claim_C1 graphFoo ("fooState") covFoo defFoo rFooCov
    (by rfl) graphFoo_eval_cov
  refine ⟨rFooCov, graphFoo_eval_cov, by decide, ?_⟩
  exact hnotin usageSetFoo (by decide) (by decide) (by decide)

/-- The dependentSelectors relation of a linear chain rooted at node 0:
node k + 1 depends on node k, for seven derived-state nodes 1 to 7. -/
def chainDeps (names : Nat → String) : List (String × List String) :=
  [(names 0, [names 1]), (names 1, [names 2]), (names 2, [names 3]),
   (names 3, [names 4]), (names 4, [names 5]), (names 5, [names 6]),
   (names 6, [names 7])]

/-- C2: on every graph whose dependentSelectors relation is a linear chain
of seven derived-state nodes rooted at the target (any definitions map
containing the target and any component usages), exactly five transitive
entries are emitted, with vias node 1 to node 5 at depths 1 to 5 — nodes 6
and 7 are excluded; and in general no transitive entry of any impact result
has depth above maxDepth. -/
theorem claim_C2 :
    (∀ (names : Nat → String),
      (∀ i j, i < 8 → j < 8 → names i = names j → i = j) →
      ∀ (dm : List (String × RecoilDefinition))
        (cu : List (String × List ResolvedUsage))
        (o : Option CoverageOptions) (d : RecoilDefinition) (r : ImpactResult),
        List.lookup (names 0) dm = some d →
        analyzeAtomImpact
          { dependentSelectors := chainDeps names, componentUsages := cu,
            definitions := dm } (names 0) o = some r →
        r.transitive.map (fun t => (t.via, t.depth)) =
          [(names 1, 1), (names 2, 2), (names 3, 3), (names 4, 4),
           (names 5, 5)]) ∧
    (∀ (g : DependencyGraph) (n : String) (o : Option CoverageOptions)
      (r : ImpactResult), analyzeAtomImpact g n o = some r →
      ∀ t ∈ r.transitive, t.depth ≤ maxDepth) := by
  constructor
  · intro names hinj dm cu o d r hdef himp
    have hne : ∀ i j : Nat, i < 8 → j < 8 → i ≠ j → names i ≠ names j :=
      fun i j hi hj hij he => hij (hinj i j hi hj he)
    have hbe : ∀ i j : Nat, i < 8 → j < 8 → i ≠ j →
        (names i == names j) = false :=
      fun i j hi hj hij => beq_eq_false_iff_ne.mpr (hne i j hi hj hij)
    have htrans :
        r.transitive =
          bfsLoop
            { dependentSelectors := chainDeps names, componentUsages := cu,
              definitions := dm }
            (((List.lookup (names 0)
                (chainDeps names)).getD []).map (fun s => (s, 1))) [] :=
      analyzeAtomImpact_transitive _ (names 0) o d r hdef himp
    rw [htrans]
    norm_num [bfsLoop_process, bfsLoop_skip_depth, bfsLoop_nil, depsOf,
      chainDeps, List.lookup, maxDepth, hbe, hne, List.filter_cons,
      List.filter_nil]
  · intro g n o r h t ht
    cases hdef : List.lookup n g.definitions with
    | none =>
      rw [(analyzeAtomImpact_none_iff g n o).mpr hdef] at h
      simp at h
    | some d =>
      rw [analyzeAtomImpact_transitive g n o d r hdef h] at ht
      exact bfsLoop_depth_le g _ [] t ht

/-- Concrete chain node names for the C2 witness. -/
def chainNames : Nat → String := fun i => "node" ++ toString i

/-- The concrete 7-node chain graph for the C2 witness. -/
def chainGraphW : DependencyGraph :=
  { dependentSelectors := chainDeps chainNames, componentUsages := [],
    definitions := [(chainNames 0, defFoo)] }

/-- Witness for C2 at the concrete 7-node chain. -/
theorem claim_C2_witness :
    ∃ r, analyzeAtomImpact chainGraphW (chainNames 0) none = some r ∧
      r.transitive.map (fun t => (t.via, t.depth)) =
        [("node1", 1), ("node2", 2), ("node3", 3), ("node4", 4),
         ("node5", 5)] ∧
      ∀ t ∈ r.transitive, t.depth ≤ maxDepth := by
  have hinjW : ∀ i j, i < 8 → j < 8 → chainNames i = chainNames j → i = j := by
    have hF : ∀ (i j : Fin 8), chainNames i.val = chainNames j.val → i = j := by
      decide
    intro i j hi hj h
    have := hF ⟨i, hi⟩ ⟨j, hj⟩ h
    simpa using congrArg Fin.val this
  have hs : (analyzeAtomImpact chainGraphW (chainNames 0) none).isSome :=
    analyzeAtomImpact_isSome _ _ _ (by rfl)
  obtain ⟨r, hr⟩ := Option.isSome_iff_exists.mp hs
  refine ⟨r, hr, ?_, claim_C2.2 _ _ _ _ hr⟩
  have hmap := claim_C2.1 chainNames hinjW [(chainNames 0, defFoo)] [] none
    defFoo r (by rfl) hr
  rw [hmap]
  decide

/-! ### Helper lemmas about insertM and the definitions index -/

theorem lookup_insertM_isSome {α : Type} (m : List (String × α))
    (k k' : String) (v : α) (h : (List.lookup k' m).isSome) :
    (List.lookup k' (insertM m k v)).isSome := by
  induction m with
  | nil => simp [List.lookup] at h
  | cons p ps ih =>
    cases p with
    | mk pk pv =>
      unfold insertM
      by_cases hk : pk == k
      · simp only [hk, if_true]
        have hpk : pk = k := eq_of_beq hk
        subst hpk
        by_cases hk2 : k' == pk
        · simp [List.lookup, hk2]
        · simp only [List.lookup, hk2] at h ⊢
          exact h
      · simp only [hk, if_false, Bool.false_eq_true]
        by_cases hk2 : k' == pk
        · simp [List.lookup, hk2]
        · simp only [List.lookup, hk2] at h ⊢
          exact ih h

theorem lookup_insertM_self {α : Type} (m : List (String × α))
    (k : String) (v : α) : (List.lookup k (insertM m k v)).isSome := by
  induction m with
  | nil => simp [insertM, List.lookup]
  | cons p ps ih =>
    cases p with
    | mk pk pv =>
      unfold insertM
      by_cases hk : pk == k
      · simp [hk, List.lookup]
      · simp only [hk, if_false, Bool.false_eq_true]
        by_cases hk2 : k == pk
        · simp [List.lookup, hk2]
        · simp only [List.lookup, hk2]
          exact ih

/-- Every definition inserted by the index fold stays present. -/
theorem lookup_foldl_insertM (defs : List RecoilDefinition) (k : String) :
    ∀ (init : List (String × RecoilDefinition)),
      ((∃ d ∈ defs, d.name = k) ∨ (List.lookup k init).isSome) →
      (List.lookup k
        (defs.foldl (fun m d => insertM m d.name d) init)).isSome := by
  induction defs with
  | nil =>
    intro init h
    rcases h with ⟨d, hd, _⟩ | h
    · simp at hd
    · simpa using h
  | cons d ds ih =>
    intro init h
    rw [List.foldl_cons]
    apply ih
    rcases h with ⟨d', hd', hk⟩ | h
    · rcases List.mem_cons.mp hd' with h1 | h2
      · right
        rw [← hk, h1]
        exact lookup_insertM_self init d.name d
      · exact Or.inl ⟨d', h2, hk⟩
    · exact Or.inr (lookup_insertM_isSome init d.name k d h)

/-- A filterMap over a list where the function never fails keeps the
length. -/
theorem length_filterMap_of_isSome {α β : Type} (f : α → Option β) :
    ∀ (l : List α), (∀ x ∈ l, (f x).isSome) →
      (l.filterMap f).length = l.length := by
  intro l
  induction l with
  | nil => intro _; rfl
  | cons a as ih =>
    intro h
    have ha := h a (List.mem_cons_self a as)
    cases hf : f a with
    | none => rw [hf] at ha; simp at ha
    | some b =>
      rw [List.filterMap_cons, hf]
      simp only [List.length_cons]
      rw [ih (fun x hx => h x (List.mem_cons_of_mem a hx))]

/-- C10: on a graph built by buildDependencyGraph from an extraction
result, analyzeFileImpact yields exactly one impact result per definition
of the extraction whose file is the resolved path — the not-found branch is
unreachable, because the builder indexes every definition by name. -/
theorem claim_C10 (extraction : ExtractionResult)
    (resolvedUsages : List ResolvedUsage) (resolvePath : String → String)
    (filePath : String) (coverageOptions : Option CoverageOptions) :
    (analyzeFileImpact resolvePath
        (buildDependencyGraph extraction resolvedUsages) filePath extraction
        coverageOptions).length =
      (extraction.recoilDefinitions.filter
          (fun d => d.file == resolvePath filePath)).length ∧
    ∀ d ∈ extraction.recoilDefinitions.filter
        (fun d => d.file == resolvePath filePath),
      (analyzeAtomImpact (buildDependencyGraph extraction resolvedUsages)
        d.name coverageOptions).isSome := by
  have hall : ∀ d ∈ extraction.recoilDefinitions.filter
      (fun d => d.file == resolvePath filePath),
      (analyzeAtomImpact (buildDependencyGraph extraction resolvedUsages)
        d.name coverageOptions).isSome := by
    intro d hd
    apply analyzeAtomImpact_isSome
    have hmem := List.mem_of_mem_filter hd
    show (List.lookup d.name
      (buildDependencyGraph extraction resolvedUsages).definitions).isSome
    have hdefs :
        (buildDependencyGraph extraction resolvedUsages).definitions =
          extraction.recoilDefinitions.foldl
            (fun m dd => insertM m dd.name dd) [] := rfl
    rw [hdefs]
    exact lookup_foldl_insertM extraction.recoilDefinitions d.name []
      (Or.inl ⟨d, hmem, rfl⟩)
  refine ⟨?_, hall⟩
  unfold analyzeFileImpact
  exact length_filterMap_of_isSome _ _ hall

/-- Witness for C10 at a concrete one-definition extraction. -/
theorem claim_C10_witness :
    (analyzeFileImpact (fun p => p)
        (buildDependencyGraph { recoilDefinitions := [defFoo] } [usageSetFoo])
        ("/app/atoms.ts") { recoilDefinitions := [defFoo] } none).length = 1 ∧
    (analyzeAtomImpact
        (buildDependencyGraph { recoilDefinitions := [defFoo] } [usageSetFoo])
        ("fooState") none).isSome := by
  obtain ⟨hlen, hall⟩ := claim_C10 { recoilDefinitions := [defFoo] }
    [usageSetFoo] (fun p => p) ("/app/atoms.ts") none
  constructor
  · rw [hlen]
    decide
  · exact hall defFoo (by simp [defFoo])

/-! ### The mutual re-export cycle scenario -/

theorem append_ne_of_ne {a b : String} (s : String) (h : a ≠ b) :
    a ++ s ≠ b ++ s := by
  intro he
  apply h
  have hd : (a ++ s).data = (b ++ s).data := by rw [he]
  simp only [String.data_append] at hd
  exact String.ext (List.append_cancel_right hd)

/-- Two files that re-export the same name from each other, and a consumer
file importing that name from the first of them. -/
def cycleGraph (fA fB fC n l : String) : FileGraph :=
  [(fC, { imports := [{ localName := l, exportedName := n, sourceFile := fA }],
          reExports := [] }),
   (fA, { imports := [],
          reExports := [{ type := ReExportType.named, localName := some n,
                          exportedName := some n, sourceFile := fB }] }),
   (fB, { imports := [],
          reExports := [{ type := ReExportType.named, localName := some n,
                          exportedName := some n, sourceFile := fA }] })]

/-- C7: on a mutual re-export cycle between two files, resolution of a name
entering the cycle terminates (the chain walker is a total structurally
recursive function; here the visited set cuts the cycle at depth 3, well
inside the cap of 5) and yields no resolution; the usage is dropped from
resolveUsages output, with no guess and no error. -/
theorem claim_C7 (fA fB fC n l : String) (hCA : fC ≠ fA) (hCB : fC ≠ fB)
    (hAB : fA ≠ fB) (u : Usage) (hf : u.file = fC) (hl : u.localName = l) :
    resolveExportedName fA n (cycleGraph fA fB fC n l) [] 1 [] = none ∧
    resolveUsages (cycleGraph fA fB fC n l) { recoilDefinitions := [] } [u] =
      [] := by
  have hkeyBA : (fB ++ ":" ++ n) ≠ (fA ++ ":" ++ n) :=
    append_ne_of_ne n (append_ne_of_ne (":") (Ne.symm hAB))
  have b1 : (fA == fC) = false := beq_eq_false_iff_ne.mpr (Ne.symm hCA)
  have b2 : (fB == fC) = false := beq_eq_false_iff_ne.mpr (Ne.symm hCB)
  have b3 : (fB == fA) = false := beq_eq_false_iff_ne.mpr (Ne.symm hAB)
  have b4 : ((fB ++ ":" ++ n) == (fA ++ ":" ++ n)) = false :=
    beq_eq_false_iff_ne.mpr hkeyBA
  have b5 : ((fA ++ ":" ++ n) == (fB ++ ":" ++ n)) = false :=
    beq_eq_false_iff_ne.mpr (Ne.symm hkeyBA)
  have hres :
      resolveExportedName fA n (cycleGraph fA fB fC n l) [] 1 [] = none := by
    norm_num [resolveExportedName, resolveExportedNameAux, maxChainDepth,
      cycleGraph, List.lookup, List.find?, List.contains, List.elem,
      b1, b2, b3, b4, b5]
  refine ⟨hres, ?_⟩
  have hdl : buildDefinitionLookup
      ({ recoilDefinitions := [] } : ExtractionResult) = [] := rfl
  unfold resolveUsages
  rw [hdl]
  simp only [List.foldl_cons, List.foldl_nil, List.lookup_nil, Option.bind,
    hf, hl]
  norm_num [cycleGraph, List.lookup, List.find?, b1, b2, b3]
  simp only [cycleGraph] at hres
  rw [hres]

/-- Witness for C7 at concrete file names. -/
theorem claim_C7_witness :
    resolveExportedName ("/p/a.ts") ("cycledAtom")
        (cycleGraph ("/p/a.ts") ("/p/b.ts") ("/p/c.tsx") ("cycledAtom")
          ("cycledAtom")) [] 1 [] = none ∧
    resolveUsages
        (cycleGraph ("/p/a.ts") ("/p/b.ts") ("/p/c.tsx") ("cycledAtom")
          ("cycledAtom"))
        { recoilDefinitions := [] }
        [{ atomName := "cycledAtom", localName := "cycledAtom",
           type := UsageType.reader, hook := "useRecoilValue",
           file := "/p/c.tsx", line := 3 }] = [] :=
  claim_C7 ("/p/a.ts") ("/p/b.ts") ("/p/c.tsx") ("cycledAtom") ("cycledAtom")
    (by decide) (by decide) (by decide) _ (by decide) (by decide)

/-! ### The direct-hook factory site and buildSetterBindings -/

/-- A consumer file: a direct (non-wrapper) setter hook call bound to a
local variable, followed by a runtime invocation of that variable. -/
def c5Program : JsNode :=
  .program
    [.importDecl ("recoil") false
       [("useSetRecoilState", "useSetRecoilState", false)],
     .varDeclarator (.ident ("setFoo"))
       (some (.callExpr (.ident ("useSetRecoilState"))
         [.ident ("fooState")] 100)),
     .callExpr (.ident ("setFoo")) [.ident ("x")] 200]

def c5Parse : String → Option JsNode := fun f =>
  if f == "/app/consumer.tsx" then some c5Program else none

def c5Resolve : String → String → Option FunctionDefinitionResult :=
  fun _ _ => none

/-- C5 evaluation: the direct hook call produces a binding and the runtime
callsite scan later finds an invocation bound to the declared setter
identifier, yet buildSetterBindings leaves resolvedFactoryKeys empty — the
declarator's own file:line key is never recorded, because keys are only
added on the wrapper path. -/
theorem claim_C5_eval :
    (buildSetterBindings ["/app/consumer.tsx"] c5Parse c5Resolve).2 = [] ∧
    (buildSetterBindings ["/app/consumer.tsx"] c5Parse c5Resolve).1 =
      [("/app/consumer.tsx:setFoo", "fooState")] ∧
    collectRuntimeWriteCallsites ["/app/consumer.tsx"] (fun _ => some "")
        (fun f _ => c5Parse f)
        (buildSetterBindings ["/app/consumer.tsx"] c5Parse c5Resolve).1 =
      [{ atomName := "fooState", file := "/app/consumer.tsx", line := 1,
         calleeName := "setFoo" }] := by
  decide

/-! ### Emission shape lemmas for the usage collector -/

/-- Shape of every usage emitted by the per-file hook pass: never the
derived-state dependency-read tag, type initializer whenever the hook is the
bare-set initializer tag, and no enclosing definition. -/
def HookEmission (u : Usage) : Prop :=
  u.hook ≠ "get(selector)" ∧
  (u.hook = "set(initializer)" → u.type = UsageType.initializer) ∧
  u.enclosingDefinition = none

theorem callbackCallEmit_spec (ctx : CallbackContext) (fp src : String)
    (anc : List JsNode) (n : JsNode) :
    ∀ u ∈ callbackCallEmit ctx fp src anc n, HookEmission u := by
  intro u hu
  unfold HookEmission
  cases n with
  | callExpr callee args start =>
    unfold callbackCallEmit at hu
    simp only [List.mem_append] at hu
    rcases hu with ((h | h) | h) | h <;>
      · repeat' split at h
        all_goals simp_all
  | _ => simp [callbackCallEmit] at hu

theorem walkCallbackBody_spec (body : JsNode) (ctx : CallbackContext)
    (fp src : String) (anc : List JsNode) :
    ∀ u ∈ walkCallbackBody body ctx fp src anc, HookEmission u := by
  intro u hu
  unfold walkCallbackBody at hu
  obtain ⟨n, _, hn⟩ := List.mem_flatMap.mp hu
  exact callbackCallEmit_spec ctx fp src anc n u hn

theorem aliasHookEmit_spec (fp src : String)
    (hookAliases : List (String × String)) (anc : List JsNode)
    (calleeName : String) (args : List JsNode) (start : Nat) :
    ∀ u ∈ aliasHookEmit fp src hookAliases anc calleeName args start,
      HookEmission u := by
  intro u hu
  unfold aliasHookEmit at hu
  split at hu
  · simp at hu
  · repeat' split at hu
    all_goals first
      | (exact walkCallbackBody_spec _ _ _ _ _ u hu)
      | (unfold HookEmission; simp_all; rcases hu with rfl | rfl <;> simp)
      | (unfold HookEmission; simp_all)

theorem enterEmit_spec (fp src : String) (st : CState) (node : JsNode)
    (anc : List JsNode) :
    ∀ u ∈ enterEmit fp src st node anc, HookEmission u := by
  intro u hu
  unfold enterEmit at hu
  split at hu
  · rename_i calleeName args start
    split at hu
    · split at hu
      · split at hu
        · split at hu
          · unfold HookEmission
            simp_all
          · simp at hu
        · exact aliasHookEmit_spec _ _ _ _ _ _ _ u hu
      · exact aliasHookEmit_spec _ _ _ _ _ _ _ u hu
    · exact aliasHookEmit_spec _ _ _ _ _ _ _ u hu
  · simp at hu

theorem runCollect_spec (fp src : String) (events : List WalkEvent) :
    ∀ (st : CState), ∀ u ∈ runCollect fp src events st, HookEmission u := by
  induction events with
  | nil =>
    intro st u hu
    simp [runCollect] at hu
  | cons ev evs ih =>
    intro st u hu
    unfold runCollect at hu
    rcases List.mem_append.mp hu with h | h
    · cases ev with
      | enter node ancestors => exact enterEmit_spec fp src st node ancestors u h
      | leave node => simp at h
    · exact ih (stateUpdate st ev) u h

theorem collectFromFile_spec (fp src : String)
    (parse : String → String → Option JsNode) :
    ∀ u ∈ collectFromFile fp src parse, HookEmission u := by
  intro u hu
  unfold collectFromFile at hu
  split at hu
  · simp at hu
  · exact runCollect_spec fp src _ initCState u hu

theorem selectorGetEmit_spec (fp src dn : String) (n : JsNode) :
    ∀ u ∈ selectorGetEmit fp src dn n,
      u.hook = "get(selector)" ∧ u.enclosingDefinition = some dn := by
  intro u hu
  unfold selectorGetEmit at hu
  repeat' split at hu
  all_goals simp_all

theorem walkSelectorGetBody_spec (body : JsNode) (fp src dn : String) :
    ∀ u ∈ walkSelectorGetBody body fp src dn,
      u.hook = "get(selector)" ∧ u.enclosingDefinition = some dn := by
  intro u hu
  unfold walkSelectorGetBody at hu
  obtain ⟨n, _, hn⟩ := List.mem_flatMap.mp hu
  exact selectorGetEmit_spec fp src dn n u hn

theorem collectFromSelectorBodies_spec (extraction : ExtractionResult)
    (readSource : String → Option String) :
    ∀ u ∈ collectFromSelectorBodies extraction readSource,
      u.hook = "get(selector)" ∧ u.enclosingDefinition.isSome := by
  unfold collectFromSelectorBodies
  generalize hdefs : extraction.recoilDefinitions = defs
  clear hdefs
  have gen : ∀ (defs : List RecoilDefinition) (init : List Usage),
      (∀ u ∈ init,
        u.hook = "get(selector)" ∧ u.enclosingDefinition.isSome) →
      ∀ u ∈ defs.foldl
        (fun acc d =>
          match readSource d.file with
          | none => acc
          | some source =>
            let standalone :=
              if d.kind == StateKind.selector ||
                  d.kind == StateKind.selectorFamily then
                match d.getBodyAst with
                | some b => walkSelectorGetBody b d.file source d.name
                | none => []
              else []
            let inlineDefault :=
              if d.kind == StateKind.atom || d.kind == StateKind.atomFamily
              then
                match d.inlineDefaultGetBody with
                | some b => walkSelectorGetBody b d.file source d.name
                | none => []
              else []
            acc ++ standalone ++ inlineDefault)
        init,
        u.hook = "get(selector)" ∧ u.enclosingDefinition.isSome := by
    intro defs
    induction defs with
    | nil => intro init hinit u hu; exact hinit u hu
    | cons d ds ih =>
      intro init hinit u hu
      rw [List.foldl_cons] at hu
      refine ih _ ?_ u hu
      intro v hv
      split at hv
      · exact hinit v hv
      · rcases List.mem_append.mp hv with h2 | h2
        · rcases List.mem_append.mp h2 with h3 | h3
          · exact hinit v h3
          · split at h3
            · split at h3
              · have := walkSelectorGetBody_spec _ _ _ _ v h3
                exact ⟨this.1, by rw [this.2]; rfl⟩
              · simp at h3
            · simp at h3
        · split at h2
          · split at h2
            · have := walkSelectorGetBody_spec _ _ _ _ v h2
              exact ⟨this.1, by rw [this.2]; rfl⟩
            · simp at h2
          · simp at h2
  exact gen defs [] (by intro u hu; simp at hu)

theorem collectUsages_hookPass_spec (files : List String)
    (readSource : String → Option String)
    (parse : String → String → Option JsNode) :
    ∀ (init : List Usage), (∀ u ∈ init, HookEmission u) →
    ∀ u ∈ files.foldl
      (fun acc filePath =>
        match readSource filePath with
        | none => acc
        | some source => acc ++ collectFromFile filePath source parse)
      init, HookEmission u := by
  induction files with
  | nil => intro init hinit u hu; exact hinit u hu
  | cons f fs ih =>
    intro init hinit u hu
    rw [List.foldl_cons] at hu
    refine ih _ ?_ u hu
    intro v hv
    split at hv
    · exact hinit v hv
    · rcases List.mem_append.mp hv with h | h
      · exact hinit v h
      · exact collectFromFile_spec _ _ parse v h

/-- C9: a usage of the collector output has its enclosingDefinition field
set exactly when its hook tag is the derived-state dependency-read tag
get(selector): selector-body walks always set it (to the owning definition
name) and no hook-pass pattern ever does. -/
theorem claim_C9 (files : List String)
    (readSource : String → Option String)
    (parse : String → String → Option JsNode)
    (extraction : ExtractionResult) :
    ∀ u ∈ collectUsages files readSource parse extraction,
      (u.hook = "get(selector)" ↔ u.enclosingDefinition.isSome) := by
  intro u hu
  unfold collectUsages at hu
  rcases List.mem_append.mp hu with h | h
  · have hh := collectUsages_hookPass_spec files readSource parse []
      (by intro v hv; simp at hv) u h
    obtain ⟨h1, _, h3⟩ := hh
    constructor
    · intro hg; exact absurd hg h1
    · intro hs; rw [h3] at hs; simp at hs
  · have hh := collectFromSelectorBodies_spec extraction readSource u h
    exact ⟨fun _ => hh.2, fun _ => hh.1⟩

/-- A concrete selector definition whose get body reads baseAtom, for the
C9 witness. -/
def selDefW : RecoilDefinition :=
  { name := "midSelector", kind := StateKind.selector, file := "/app/mid.ts",
    line := 2,
    getBodyAst := some (.callExpr (.ident ("get")) [.ident ("baseAtom")] 10) }

/-- The usage that walking selDefW's get body emits. -/
def getUsageW : Usage :=
  { atomName := "baseAtom", localName := "baseAtom",
    type := UsageType.reader, hook := "get(selector)", file := "/app/mid.ts",
    line := 1, enclosingDefinition := some "midSelector" }

/-- Witness for C9 at a concrete one-selector extraction. -/
theorem claim_C9_witness :
    getUsageW ∈ collectUsages [] (fun _ => some ("")) (fun _ _ => none)
        { recoilDefinitions := [selDefW] } ∧
    (getUsageW.hook = "get(selector)" ↔ getUsageW.enclosingDefinition.isSome) := by
  have hmem : getUsageW ∈ collectUsages [] (fun _ => some (""))
      (fun _ _ => none) { recoilDefinitions := [selDefW] } := by decide
  exact ⟨hmem,
    claim_C9 [] (fun _ => some ("")) (fun _ _ => none)
      { recoilDefinitions := [selDefW] } getUsageW hmem⟩

/-- A file whose initialize-named function is variable-bound (an arrow
function), with a bare set call inside. -/
def c6Program : JsNode :=
  .program
    [.varDeclarator (.ident ("initializeFoo"))
      (some (.arrowFn [.ident ("set")]
        (.block [.callExpr (.ident ("set")) [.ident ("myAtom")] 0])))]

/-- C6 counterexample: the bare set call occurs lexically inside a
variable-bound function named initializeFoo, yet the collector emits no
usage at all — the bare-set path only consults the stack of named function
declarations, so the claimed initializer Usage does not exist. -/
theorem claim_C6_counterexample :
    collectFromFile ("/app/init.ts") ("") (fun _ _ => some c6Program) = [] := by
  decide

/-- C6 (amended): a bare call to the identifier set whose first argument
extracts an atom name produces exactly one Usage, of type initializer with
hook set(initializer) (never setter), when the innermost enclosing named
function declaration — the top of the collector's function-name stack —
has a name passing the case-insensitive initialize prefix test
(variable-bound functions are not tracked by this path); and in the whole
collector output, every usage with the set(initializer) hook has type
initializer. -/
theorem claim_C6 :
    (∀ (fp src : String) (st : CState) (args : List JsNode) (start : Nat)
      (anc : List JsNode) (fname atomName : String),
      st.functionNameStack.getLast? = some fname →
      isInitializeName fname = true →
      extractAtomName args.head? = some atomName →
      enterEmit fp src st (.callExpr (.ident ("set")) args start) anc =
        [{ atomName := atomName, localName := atomName,
           type := UsageType.initializer, hook := "set(initializer)",
           file := fp, line := offsetToLine src start }]) ∧
    (∀ (files : List String) (readSource : String → Option String)
      (parse : String → String → Option JsNode)
      (extraction : ExtractionResult),
      ∀ u ∈ collectUsages files readSource parse extraction,
        u.hook = "set(initializer)" → u.type = UsageType.initializer) := by
  constructor
  · intro fp src st args start anc fname atomName hlast hinit hatom
    have hne : st.functionNameStack ≠ [] := by
      intro he
      rw [he] at hlast
      simp at hlast
    unfold enterEmit
    simp only [beq_self_eq_true, Bool.true_and, List.isEmpty_eq_true]
    rw [if_pos (by simpa using hne), hlast]
    simp [hinit, hatom]
  · intro files readSource parse extraction u hu hinit
    unfold collectUsages at hu
    rcases List.mem_append.mp hu with h | h
    · exact (collectUsages_hookPass_spec files readSource parse []
        (by intro v hv; simp at hv) u h).2.1 hinit
    · have := (collectFromSelectorBodies_spec extraction readSource u h).1
      rw [hinit] at this
      simp at this

/-- Witness for the amended C6 at a concrete stack and call. -/
theorem claim_C6_witness :
    enterEmit ("/app/boot.ts") ("")
        { hookAliases := [], functionNameStack := ["initializeApp"] }
        (.callExpr (.ident ("set")) [.ident ("myAtom")] 0) [] =
      [{ atomName := "myAtom", localName := "myAtom",
         type := UsageType.initializer, hook := "set(initializer)",
         file := "/app/boot.ts", line := 1 }] :=
  claim_C6.1 ("/app/boot.ts") ("")
    { hookAliases := [], functionNameStack := ["initializeApp"] }
    [.ident ("myAtom")] 0 [] ("initializeApp") ("myAtom")
    (by decide) (by decide) (by decide)

end RecoilGuard
